import Mathlib

/-!
Verification of the tour-document model and mutation engine of
`src/tour-editor.js` (Pannellum Tour Editor).

The JavaScript is shallowly embedded: the global `tourConfig` object becomes
the `TourConfig` structure (a JS object's string-keyed fields become an
association list that preserves insertion order, exactly as JS objects
enumerate their keys), and each mutation function of the source becomes a
Lean function of the same name.  DOM reads, the Pannellum viewer mirror and
`confirm`/`alert` dialogs are outside the document model: functions receive
their (already `.trim()`-ed) form inputs as arguments, confirmation dialogs
are modelled as accepted, and an early `return` that leaves `tourConfig`
untouched is modelled as `none`.  JS numbers that are only ever copied
around (camera angles) are modelled as `Int`.
-/

namespace TourEditor

/-- A hotspot record, as built by `confirmAddHotspot` (src/tour-editor.js
lines 1148-1159): anchor position, label text, target scene reference,
globally unique id, and the denormalised target camera.  The constant
`type: "scene"` field is omitted. -/
structure Hotspot where
  pitch : Int
  yaw : Int
  text : String
  sceneId : String
  id : String
  targetPitch : Int
  targetYaw : Int
  targetHfov : Int
deriving DecidableEq

/-- A scene record as built by `addNewScene` (lines 432-448): camera
defaults, imagery parameters, and the ordered hotspot list. -/
structure Scene where
  hfov : Int
  pitch : Int
  yaw : Int
  preview : String
  basePath : String
  maxLevel : Int
  cubeResolution : Int
  hotSpots : List Hotspot
deriving DecidableEq

/-- The root `tourConfig` aggregate (lines 23-31).  `scenes` is an
insertion-ordered association list mirroring the JS object; JS guarantees
its keys are pairwise distinct.  `sceneFadeDuration` and `autoLoad` are
constant pass-through settings and are omitted. -/
structure TourConfig where
  firstScene : String
  sceneOrder : List String
  scenes : List (String × Scene)
deriving DecidableEq

/-- The scene ids in map iteration order (`Object.keys(tourConfig.scenes)`). -/
def sceneKeys (t : TourConfig) : List String :=
  t.scenes.map Prod.fst

/-- `tourConfig.scenes[k]`: the first entry with key `k`, if any. -/
def lookupScene (scenes : List (String × Scene)) (k : String) : Option Scene :=
  (scenes.find? (fun ks => ks.1 = k)).map Prod.snd

/-- All hotspot ids of a scene list, in iteration order. -/
def scenesIds (scenes : List (String × Scene)) : List String :=
  scenes.flatMap (fun ks => ks.2.hotSpots.map (fun hs => hs.id))

/-- All hotspot ids in the document, in iteration order: used to state
invariant 1 (global uniqueness of hotspot ids). -/
def hotspotIds (t : TourConfig) : List String :=
  scenesIds t.scenes

/-- The initial document (lines 23-31): no scenes, empty order, empty
first scene. -/
def initialConfig : TourConfig :=
  { firstScene := "", sceneOrder := [], scenes := [] }

/-!
## Identifier policy

Character-set validation used by `renameScene` and `validateHotspotId`:
the regex `/^[a-zA-Z0-9_-]+$/` (lines 1217, 1765).
-/

/-- One character of the id alphabet `[a-zA-Z0-9_-]`. -/
def isIdChar (c : Char) : Bool :=
  (97 ≤ c.toNat && c.toNat ≤ 122) || (65 ≤ c.toNat && c.toNat ≤ 90) ||
    (48 ≤ c.toNat && c.toNat ≤ 57) || c = '_' || c = '-'

/-- The test `/^[a-zA-Z0-9_-]+$/.test(s)`: non-empty and every character
in the id alphabet. -/
def validIdPattern (s : String) : Bool :=
  !s.data.isEmpty && s.data.all isIdChar

/-!
JS number-to-string conversion.  Template literals such as
`` `hs_${scene}_${counter}` `` render a non-negative integer in decimal with
no padding; `natDigits` is that decimal digit list (most significant digit
first).  It is defined with structural fuel so that concrete instances
reduce by `decide`.
-/

/-- The character of a decimal digit. -/
def digitChar (d : Nat) : Char := Char.ofNat (48 + d)

/-- Decimal digits of `n`, most significant first; `fuel` bounds the
recursion and any `fuel > n` yields the same list. -/
def natDigitsAux : Nat → Nat → List Char
  | 0, _ => []
  | fuel + 1, n =>
    if n < 10 then [digitChar n]
    else natDigitsAux fuel (n / 10) ++ [digitChar (n % 10)]

/-- Decimal representation of `n` as a character list. -/
def natDigits (n : Nat) : List Char := natDigitsAux (n + 1) n

/-- Decimal representation of `n` as a string (JS `${n}`). -/
def natToString (n : Nat) : String := String.mk (natDigits n)

/-- `counter.toString().padStart(3, '0')` (line 1804): left-pad the decimal
representation with zeros to at least three characters. -/
def pad3 (n : Nat) : List Char :=
  List.replicate (3 - (natDigits n).length) '0' ++ natDigits n

/-- The candidate id `` `hs_${targetSceneId}_${counter.toString().padStart(3,'0')}` ``
tried by `generateSceneBasedHotspotId` (line 1804). -/
def candidateId (targetSceneId : String) (n : Nat) : String :=
  "hs_" ++ targetSceneId ++ "_" ++ String.mk (pad3 n)

/-- `isHotspotIdInUse` (lines 1816-1823): whether any hotspot in any scene
carries this id. -/
def isHotspotIdInUse (t : TourConfig) (hid : String) : Bool :=
  t.scenes.any (fun ks => ks.2.hotSpots.any (fun hs => hs.id = hid))

/-- The do-while loop of `generateSceneBasedHotspotId` (lines 1798-1809),
with structural fuel: try `candidateId target counter`, and on collision
retry with `counter + 1`.  Fuel `0` is never reached when the initial fuel
exceeds the number of hotspots in the document (see
`generateSceneBasedHotspotId_spec`). -/
def genHotspotIdAux (t : TourConfig) (target : String) : Nat → Nat → String
  | _, 0 => ""
  | counter, fuel + 1 =>
    let c := candidateId target counter
    if isHotspotIdInUse t c then genHotspotIdAux t target (counter + 1) fuel
    else c

/-- `generateSceneBasedHotspotId(targetSceneId)` (lines 1798-1809): the
first unused `hs_<target>_<NNN>` counting up from 001.  The JS loop is
unbounded; fuel `length (hotspotIds t) + 1` suffices because the candidates
are pairwise distinct and at most `length (hotspotIds t)` ids are in use. -/
def generateSceneBasedHotspotId (t : TourConfig) (target : String) : String :=
  genHotspotIdAux t target 1 ((hotspotIds t).length + 1)

/-- Outcome of `validateHotspotId` (lines 1758-1791), keeping the reason
apart as the source does through its `errorMessage`. -/
inductive HotspotIdValidation where
  | valid : HotspotIdValidation
  | invalidChars : HotspotIdValidation
  | duplicate (sceneId : String) : HotspotIdValidation
deriving DecidableEq

/-- The inner index loop of `validateHotspotId`: scan `hotSpots` of one
scene for a hotspot with id `hid`, skipping index `excludeIndex` when
`sameScene` (the scene being scanned is the context scene). -/
def findDupHotspot (hid : String) (sameScene : Bool) (excludeIndex : Int) :
    Nat → List Hotspot → Bool
  | _, [] => false
  | i, hs :: rest =>
    if sameScene && (i : Int) = excludeIndex then
      findDupHotspot hid sameScene excludeIndex (i + 1) rest
    else if hs.id = hid then true
    else findDupHotspot hid sameScene excludeIndex (i + 1) rest

/-- The outer scene loop of `validateHotspotId`: first scene containing a
non-excluded hotspot with id `hid`. -/
def findDupScene (hid : String) (sceneId : String) (excludeIndex : Int) :
    List (String × Scene) → Option String
  | [] => none
  | ks :: rest =>
    if findDupHotspot hid (ks.1 = sceneId) excludeIndex 0 ks.2.hotSpots then some ks.1
    else findDupScene hid sceneId excludeIndex rest

/-- `validateHotspotId(hotspotId, sceneId, excludeIndex)` (lines 1758-1791):
blank ids are valid (auto-generate later); otherwise the id must match the
pattern and must not collide with any hotspot in any scene other than the
excluded `(sceneId, excludeIndex)` slot. -/
def validateHotspotId (t : TourConfig) (hid : String) (sceneId : String)
    (excludeIndex : Int) : HotspotIdValidation :=
  if hid = "" then .valid
  else if !validIdPattern hid then .invalidChars
  else
    match findDupScene hid sceneId excludeIndex t.scenes with
    | some k => .duplicate k
    | none => .valid

/-!
## Mutation operations
-/

/-- The scene record `addNewScene` builds (lines 432-448). -/
def mkScene (path : String) (maxLevel cubeResolution : Int) : Scene :=
  { hfov := 100, pitch := 0, yaw := 0,
    preview := path ++ "1/f_0_0.jpg", basePath := path,
    maxLevel := maxLevel, cubeResolution := cubeResolution, hotSpots := [] }

/-- `addNewScene` (lines 415-487), document part: rejects an empty id or
path or a taken id; otherwise inserts the scene (at the end of the JS
object), appends the id to `sceneOrder`, and makes it the first scene
exactly when it is the only scene after insertion (i.e. the document was
empty before). -/
def addNewScene (t : TourConfig) (newSceneId newScenePath : String)
    (maxLevel cubeResolution : Int) : Option TourConfig :=
  if newSceneId = "" || newScenePath = "" then none
  else if (lookupScene t.scenes newSceneId).isSome then none
  else
    some { firstScene := if t.scenes.isEmpty then newSceneId else t.firstScene,
           sceneOrder := t.sceneOrder ++ [newSceneId],
           scenes := t.scenes ++ [(newSceneId, mkScene newScenePath maxLevel cubeResolution)] }

/-- `sceneOrder[indexOf(oldId)] = newId` (lines 1262-1265): replace the
first occurrence, leave the list unchanged when absent. -/
def replaceFirst (old new : String) : List String → List String
  | [] => []
  | k :: rest => if k = old then new :: rest else k :: replaceFirst old new rest

/-- The per-hotspot repointing of `renameScene` (lines 1249-1259): hotspots
targeting `old` are repointed to `new`; `text` is deliberately untouched. -/
def repointHotspot (old new : String) (hs : Hotspot) : Hotspot :=
  if hs.sceneId = old then { hs with sceneId := new } else hs

/-- `renameScene(oldSceneId, newSceneId)` (lines 1209-1304), document part
(the `confirm` dialog is modelled as accepted, the viewer mirror dropped):
the new id must be non-empty and match the pattern; an identity rename
short-circuits to success before the taken-id check; a taken new id is
rejected.  On success the scene map is rebuilt with the key substituted in
place, every hotspot reference is repointed, and `sceneOrder`/`firstScene`
entries equal to `oldSceneId` are updated.  Note the source never checks
that `oldSceneId` exists. -/
def renameScene (t : TourConfig) (oldSceneId newSceneId : String) : Option TourConfig :=
  if newSceneId = "" then none
  else if !validIdPattern newSceneId then none
  else if oldSceneId = newSceneId then some t
  else if (lookupScene t.scenes newSceneId).isSome then none
  else
    some { firstScene := if t.firstScene = oldSceneId then newSceneId else t.firstScene,
           sceneOrder := replaceFirst oldSceneId newSceneId t.sceneOrder,
           scenes := t.scenes.map (fun ks =>
             (if ks.1 = oldSceneId then newSceneId else ks.1,
              { ks.2 with hotSpots := ks.2.hotSpots.map (repointHotspot oldSceneId newSceneId) })) }

/-- The document mutation of `deleteCurrentScene` (lines 617-651), in the
source's order: `delete tourConfig.scenes[x]`, splice `x` out of
`sceneOrder` (first occurrence), recompute `firstScene` from the remaining
keys when it pointed at `x`, then filter out every hotspot whose `sceneId`
is `x`. -/
def deleteSceneCore (t : TourConfig) (x : String) : TourConfig :=
  { firstScene :=
      if t.firstScene = x then
        match t.scenes.filter (fun ks => ks.1 ≠ x) with
        | [] => ""
        | ks :: _ => ks.1
      else t.firstScene,
    sceneOrder := t.sceneOrder.erase x,
    scenes := (t.scenes.filter (fun ks => ks.1 ≠ x)).map (fun ks =>
      (ks.1, { ks.2 with hotSpots := ks.2.hotSpots.filter (fun hs => hs.sceneId ≠ x) })) }

/-- `deleteCurrentScene` guarded entry (line 524 `if (!currentScene) return`,
confirmation modelled as accepted): deleting the selected scene `x`. -/
def deleteScene (t : TourConfig) (x : String) : Option TourConfig :=
  if x = "" then none else some (deleteSceneCore t x)

/-- Apply `f` to the scene stored under key `k`, in place — the JS
`tourConfig.scenes[k].foo = ...` object mutation. -/
def updateSceneAt (scenes : List (String × Scene)) (k : String) (f : Scene → Scene) :
    List (String × Scene) :=
  scenes.map (fun ks => if ks.1 = k then (ks.1, f ks.2) else ks)

/-- The hotspot record assembled by `confirmAddHotspot` (lines 1148-1159):
the target camera is snapshotted from the target scene's current defaults
(`0/0/100` when the target is missing, per the `?:`/`|| 0` fallbacks). -/
def mkHotspotData (t : TourConfig) (text hid target : String) (hp hy : Int) : Hotspot :=
  let tp := match lookupScene t.scenes target with | some sc => sc.pitch | none => 0
  let ty := match lookupScene t.scenes target with | some sc => sc.yaw | none => 0
  let th := match lookupScene t.scenes target with | some sc => sc.hfov | none => 100
  { pitch := hp, yaw := hy, text := text, sceneId := target, id := hid,
    targetPitch := tp, targetYaw := ty, targetHfov := th }

/-- `confirmAddHotspot` (lines 1109-1196), document part.  `counter` is the
global `hotspotCounter`; `editIndex = none` is add mode (`pendingHotspot`
not editing), `some i` is edit mode at index `i`.  Inputs arrive trimmed as
in the source.  Guards: a falsy `currentScene` returns early; a missing
owner scene or (in edit mode) an out-of-range index would throw in JS, so
those calls do not complete and are `none`.  Validation: a missing target
is rejected, then `validateHotspotId` runs with the edited slot excluded
(`-1` in add mode).  A blank id falls back to
`` `hs_${currentScene}_${hotspotCounter++}` `` (lines 1137-1140).  The new
record is then written at the edit index or pushed at the end. -/
def confirmAddHotspot (t : TourConfig) (counter : Nat) (currentScene text hid target : String)
    (hp hy : Int) (editIndex : Option Nat) : Option (TourConfig × Nat) :=
  if currentScene = "" then none
  else
    match lookupScene t.scenes currentScene with
    | none => none
    | some sc =>
      if target = "" then none
      else
        let excludeIndex : Int := match editIndex with | some i => (i : Int) | none => -1
        if validateHotspotId t hid currentScene excludeIndex ≠ .valid then none
        else
          let text1 := if text = "" then target else text
          let hid1 := if hid = "" then "hs_" ++ currentScene ++ "_" ++ natToString counter else hid
          let counter1 := if hid = "" then counter + 1 else counter
          let data := mkHotspotData t text1 hid1 target hp hy
          match editIndex with
          | some i =>
            if i < sc.hotSpots.length then
              let scenes1 := updateSceneAt t.scenes currentScene
                (fun s => { s with hotSpots := s.hotSpots.set i data })
              some ({ t with scenes := scenes1 }, counter1)
            else none
          | none =>
            let scenes1 := updateSceneAt t.scenes currentScene
              (fun s => { s with hotSpots := s.hotSpots ++ [data] })
            some ({ t with scenes := scenes1 }, counter1)

/-- `window.deleteHotspot(index)` (lines 900-923), document part: with a
scene selected, splice out the hotspot at `index` when in range; an
out-of-range index completes without touching the document. -/
def deleteHotspotOp (t : TourConfig) (currentScene : String) (index : Nat) :
    Option TourConfig :=
  if currentScene = "" then none
  else
    match lookupScene t.scenes currentScene with
    | none => none
    | some sc =>
      if index < sc.hotSpots.length then
        let scenes1 := updateSceneAt t.scenes currentScene
          (fun s => { s with hotSpots := s.hotSpots.eraseIdx index })
        some { t with scenes := scenes1 }
      else some t

/-- `handleHotspotDrop` (lines 1584-1605), document part: move the hotspot
at `i` to position `j` in the selected scene's list (splice out, splice
in).  Equal indices complete without mutation; out-of-range indices would
insert `undefined` into the document and are not successful completions. -/
def moveHotspotOp (t : TourConfig) (currentScene : String) (i j : Nat) :
    Option TourConfig :=
  if i = j then some t
  else
    match lookupScene t.scenes currentScene with
    | none => none
    | some sc =>
      if h : i < sc.hotSpots.length then
        if j < sc.hotSpots.length then
          let dragged := sc.hotSpots.get ⟨i, h⟩
          let scenes1 := updateSceneAt t.scenes currentScene
            (fun s => { s with hotSpots := (s.hotSpots.eraseIdx i).insertIdx j dragged })
          some { t with scenes := scenes1 }
        else none
      else none

/-- The object-rebuild loop of `reorderScenes` (lines 1409-1415): for each
id of `newOrder` that names an existing scene, assign it into the new
object.  Re-assigning an id already assigned rewrites the same value at its
first position, so it is modelled as a skip (`seen`). -/
def rebuildScenes (scenes : List (String × Scene)) (seen : List String) :
    List String → List (String × Scene)
  | [] => []
  | k :: rest =>
    if k ∈ seen then rebuildScenes scenes seen rest
    else
      match lookupScene scenes k with
      | some s => (k, s) :: rebuildScenes scenes (k :: seen) rest
      | none => rebuildScenes scenes seen rest

/-- `reorderScenes(newOrder)` (lines 1404-1435): no validation whatsoever —
`sceneOrder` is overwritten with `newOrder` and the scene map is rebuilt to
contain exactly the scenes `newOrder` mentions, in that order; scenes
absent from `newOrder` are dropped. -/
def reorderScenes (t : TourConfig) (newOrder : List String) : TourConfig :=
  { t with sceneOrder := newOrder, scenes := rebuildScenes t.scenes [] newOrder }

/-- Per-hotspot update of `updateHotspotReferences` (lines 1312-1338):
hotspots targeting `targetSceneId` get the new target camera; text and
anchor position are deliberately untouched. -/
def retargetHotspot (targetSceneId : String) (p y h : Int) (hs : Hotspot) : Hotspot :=
  if hs.sceneId = targetSceneId then
    { hs with targetPitch := p, targetYaw := y, targetHfov := h }
  else hs

/-- The count returned by `updateHotspotReferences`: how many hotspots in
the whole document target `targetSceneId`. -/
def countTargeting (scenes : List (String × Scene)) (targetSceneId : String) : Nat :=
  (scenes.map (fun ks => (ks.2.hotSpots.filter (fun hs => hs.sceneId = targetSceneId)).length)).sum

/-- `updateHotspotReferences(targetSceneId, updates)` applied to every
scene's hotspot list. -/
def updateHotspotReferences (scenes : List (String × Scene)) (targetSceneId : String)
    (p y h : Int) : List (String × Scene) :=
  scenes.map (fun ks =>
    (ks.1, { ks.2 with hotSpots := ks.2.hotSpots.map (retargetHotspot targetSceneId p y h) }))

/-- `updateSceneWithCapturedView(pitch, yaw, hfov)` (lines 804-841),
document part, with `currentScene = s`: guard on a selected, existing
scene; overwrite its camera defaults; then run `updateHotspotReferences`
over every scene and return its count. -/
def updateSceneWithCapturedView (t : TourConfig) (s : String) (p y h : Int) :
    Option (TourConfig × Nat) :=
  if s = "" then none
  else
    match lookupScene t.scenes s with
    | none => none
    | some _ =>
      let scenes1 := updateSceneAt t.scenes s
        (fun sc => { sc with pitch := p, yaw := y, hfov := h })
      some ({ t with scenes := updateHotspotReferences scenes1 s p y h },
            countTargeting scenes1 s)

/-!
## Import normalization

`importConfiguration` (lines 1882-1922) repairs a freshly parsed document:
derive `sceneOrder` from scene insertion order when missing or empty, run
`ensureHotspotIds` (lines 1843-1876), then `reorderScenes(sceneOrder)` to
reconcile the scene map's iteration order.  Hotspot ids that are missing,
non-strings, or whitespace-only are modelled as `""`.
-/

/-- `"str".split('_')` on character lists: underscore-separated parts,
empty parts kept. -/
def splitOnUnderscore : List Char → List (List Char)
  | [] => [[]]
  | c :: rest =>
    match splitOnUnderscore rest with
    | [] => [[]]
    | h :: ts => if c = '_' then [] :: h :: ts else (c :: h) :: ts

/-- ASCII decimal digit test. -/
def isDigitChar (c : Char) : Bool := 48 ≤ c.toNat && c.toNat ≤ 57

/-- Numeric value of a digit-character list read most significant first
(the accumulator view of decimal parsing). -/
def jsDigitsValue (l : List Char) : Nat :=
  l.foldl (fun a c => 10 * a + (c.toNat - 48)) 0

/-- JS `parseInt` as used on id suffixes: parse the leading run of decimal
digits, `none` (NaN) when there is none.  Signs never contribute to the
source's `Math.max(0, ...)`-style fold, so they are folded into `none`. -/
def jsParseInt (l : List Char) : Option Nat :=
  let ds := l.takeWhile isDigitChar
  if ds.isEmpty then none else some (jsDigitsValue ds)

/-- `hotspot.id.startsWith('hs_')` (line 1851). -/
def startsWithHs (s : String) : Bool :=
  match s.data with
  | 'h' :: 's' :: '_' :: _ => true
  | _ => false

/-- The numeric suffix `ensureHotspotIds` extracts from one id (lines
1851-1857): for ids starting with `hs_` whose underscore-split has at least
three parts, `parseInt` of the last part. -/
def suffixValue (hid : String) : Option Nat :=
  if startsWithHs hid && 3 ≤ (splitOnUnderscore hid.data).length then
    jsParseInt ((splitOnUnderscore hid.data).getLastD [])
  else none

/-- The first pass of `ensureHotspotIds` (lines 1844-1862): the maximum
numeric suffix over every hotspot id in the document (0 when none). -/
def maxSuffix (t : TourConfig) : Nat :=
  t.scenes.foldl
    (fun acc ks => ks.2.hotSpots.foldl
      (fun a hs =>
        match suffixValue hs.id with
        | some v => max a v
        | none => a) acc) 0

/-- `fixMissingHotspotId` (lines 1831-1837) threaded over one scene's
hotspot list: blank ids become `` `hs_${sceneId}_${hotspotCounter++}` ``. -/
def assignIdsHotspots (sceneId : String) (counter : Nat) :
    List Hotspot → List Hotspot × Nat
  | [] => ([], counter)
  | hs :: rest =>
    if hs.id = "" then
      let hs1 := { hs with id := "hs_" ++ sceneId ++ "_" ++ natToString counter }
      let r := assignIdsHotspots sceneId (counter + 1) rest
      (hs1 :: r.1, r.2)
    else
      let r := assignIdsHotspots sceneId counter rest
      (hs :: r.1, r.2)

/-- The second pass of `ensureHotspotIds` (lines 1867-1875), threaded over
the scene list. -/
def assignIdsScenes (counter : Nat) :
    List (String × Scene) → List (String × Scene) × Nat
  | [] => ([], counter)
  | ks :: rest =>
    let f := assignIdsHotspots ks.1 counter ks.2.hotSpots
    let r := assignIdsScenes f.2 rest
    ((ks.1, { ks.2 with hotSpots := f.1 }) :: r.1, r.2)

/-- The normalization pipeline of `importConfiguration` (lines 1893-1901)
applied to a successfully parsed document, returning the repaired document
and the resulting global `hotspotCounter`. -/
def importNormalize (t : TourConfig) : TourConfig × Nat :=
  let t1 := if t.sceneOrder.isEmpty then { t with sceneOrder := sceneKeys t } else t
  let a := assignIdsScenes (maxSuffix t1 + 1) t1.scenes
  let t2 := { t1 with scenes := a.1 }
  (reorderScenes t2 t2.sceneOrder, a.2)

/-!
## Global invariants and the operation step relation

The four global invariants of spec §3, together with the structural fact —
automatic for JS objects — that the scene map's keys are pairwise
distinct.
-/

/-- Invariant 1: hotspot ids are globally unique. -/
def InvHotspotIdsUnique (t : TourConfig) : Prop := (hotspotIds t).Nodup

/-- Invariant 2: every hotspot targets an existing scene other than its
owner. -/
def InvTargetsValid (t : TourConfig) : Prop :=
  ∀ ks ∈ t.scenes, ∀ hs ∈ ks.2.hotSpots, hs.sceneId ∈ sceneKeys t ∧ hs.sceneId ≠ ks.1

/-- Invariant 3: `sceneOrder` is exactly a permutation of the scene keys. -/
def InvOrderPerm (t : TourConfig) : Prop := t.sceneOrder.Perm (sceneKeys t)

/-- Invariant 4: `firstScene` is empty or an existing scene key. -/
def InvFirstScene (t : TourConfig) : Prop :=
  t.firstScene = "" ∨ t.firstScene ∈ sceneKeys t

/-- All invariants, including key uniqueness of the scene map. -/
def Inv (t : TourConfig) : Prop :=
  (sceneKeys t).Nodup ∧ InvHotspotIdsUnique t ∧ InvTargetsValid t ∧
    InvOrderPerm t ∧ InvFirstScene t

instance (t : TourConfig) : Decidable (Inv t) := by
  unfold Inv InvHotspotIdsUnique InvTargetsValid InvOrderPerm InvFirstScene
  infer_instance

/-- One successfully completing mutation-engine operation, restricted as
claim C1's amendment requires: `renameScene` is invoked on an existing
scene, hotspot add/edit supplies a non-empty explicit id and an existing
target distinct from the owner, and `reorderScenes` receives a permutation
of the scene keys.  All other operations carry no side conditions beyond
their own success. -/
inductive Step : TourConfig → TourConfig → Prop
  | addScene {t t' : TourConfig} {id path : String} {ml cr : Int}
      (h : addNewScene t id path ml cr = some t') : Step t t'
  | renameScene {t t' : TourConfig} {old new : String}
      (hOld : old ∈ sceneKeys t)
      (h : renameScene t old new = some t') : Step t t'
  | deleteScene {t t' : TourConfig} {x : String}
      (h : deleteScene t x = some t') : Step t t'
  | addHotspot {t t' : TourConfig} {c c' : Nat} {owner text hid target : String} {hp hy : Int}
      (hHid : hid ≠ "") (hTarget : target ∈ sceneKeys t) (hSelf : target ≠ owner)
      (h : confirmAddHotspot t c owner text hid target hp hy none = some (t', c')) : Step t t'
  | editHotspot {t t' : TourConfig} {c c' : Nat} {owner text hid target : String} {hp hy : Int}
      {i : Nat}
      (hHid : hid ≠ "") (hTarget : target ∈ sceneKeys t) (hSelf : target ≠ owner)
      (h : confirmAddHotspot t c owner text hid target hp hy (some i) = some (t', c')) :
      Step t t'
  | deleteHotspot {t t' : TourConfig} {s : String} {i : Nat}
      (h : deleteHotspotOp t s i = some t') : Step t t'
  | moveHotspot {t t' : TourConfig} {s : String} {i j : Nat}
      (h : moveHotspotOp t s i j = some t') : Step t t'
  | reorderScenes {t : TourConfig} {newOrder : List String}
      (hPerm : newOrder.Perm (sceneKeys t)) : Step t (reorderScenes t newOrder)
  | captureView {t t' : TourConfig} {s : String} {p y h : Int} {n : Nat}
      (hCap : updateSceneWithCapturedView t s p y h = some (t', n)) : Step t t'

/-- A sequence of successfully completing operations. -/
def Steps : TourConfig → TourConfig → Prop := Relation.ReflTransGen Step

/-!
## Association-list toolkit

Basic facts about `lookupScene`, `sceneKeys`, `scenesIds` and `updateSceneAt`.
-/

theorem lookupScene_nil {k : String} : lookupScene [] k = none := rfl

theorem lookupScene_cons_self {k : String} {s : Scene} {rest : List (String × Scene)} :
    lookupScene ((k, s) :: rest) k = some s := by
  simp [lookupScene, List.find?]

theorem lookupScene_cons_ne {k k' : String} {s : Scene} {rest : List (String × Scene)}
    (h : k' ≠ k) : lookupScene ((k', s) :: rest) k = lookupScene rest k := by
  simp [lookupScene, List.find?, h]

theorem lookupScene_eq_none_iff {scenes : List (String × Scene)} {k : String} :
    lookupScene scenes k = none ↔ k ∉ scenes.map Prod.fst := by
  induction scenes with
  | nil => simp [lookupScene]
  | cons ks rest ih =>
    by_cases hk : ks.1 = k
    · constructor
      · intro h
        rw [show ks :: rest = (ks.1, ks.2) :: rest from rfl, hk,
          lookupScene_cons_self] at h
        exact absurd h (by simp)
      · intro h
        exact absurd (by simp [← hk] : k ∈ (ks :: rest).map Prod.fst) h
    · rw [show ks :: rest = (ks.1, ks.2) :: rest from rfl, lookupScene_cons_ne hk, ih]
      simp only [List.map_cons, List.mem_cons]
      constructor
      · intro h hmem
        rcases hmem with hmem | hmem
        · exact hk hmem.symm
        · exact h hmem
      · intro h hmem; exact h (Or.inr hmem)

theorem lookupScene_isSome_iff {scenes : List (String × Scene)} {k : String} :
    (lookupScene scenes k).isSome = true ↔ k ∈ scenes.map Prod.fst := by
  constructor
  · intro h
    by_contra hmem
    rw [lookupScene_eq_none_iff.mpr hmem] at h
    exact absurd h (by simp)
  · intro h
    cases hO : lookupScene scenes k with
    | none => exact absurd h (lookupScene_eq_none_iff.mp hO)
    | some s => rfl

theorem lookupScene_append_of_not_mem {pre rest : List (String × Scene)} {k : String}
    (h : k ∉ pre.map Prod.fst) :
    lookupScene (pre ++ rest) k = lookupScene rest k := by
  induction pre with
  | nil => rfl
  | cons ks tl ih =>
    have hne : ks.1 ≠ k := by
      intro hk; exact h (by simp [hk])
    rw [show (ks :: tl) ++ rest = (ks.1, ks.2) :: (tl ++ rest) from rfl,
      lookupScene_cons_ne hne]
    exact ih (fun hm => h (by simp [hm]))

/-- Every list whose elements are fixed by `f` is fixed by `map f`. -/
theorem map_eq_self_of {α : Type} {l : List α} {f : α → α} (h : ∀ a ∈ l, f a = a) :
    l.map f = l := by
  induction l with
  | nil => rfl
  | cons a tl ih =>
    rw [List.map_cons, h a (by simp), ih (fun b hb => h b (by simp [hb]))]

/-- Split an association list with pairwise-distinct keys at a present key. -/
theorem scenes_decomp_of_mem {scenes : List (String × Scene)} {k : String}
    (hmem : k ∈ scenes.map Prod.fst) (hnd : (scenes.map Prod.fst).Nodup) :
    ∃ pre s post, scenes = pre ++ (k, s) :: post ∧
      k ∉ pre.map Prod.fst ∧ k ∉ post.map Prod.fst := by
  obtain ⟨p, hp, hpk⟩ := List.mem_map.mp hmem
  obtain ⟨pre, post, rfl⟩ := List.append_of_mem hp
  rw [List.map_append, List.map_cons] at hnd
  have h3 := List.nodup_middle.mp hnd
  have h4 := (List.nodup_cons.mp h3).1
  subst hpk
  refine ⟨pre, p.2, post, by simp, ?_, ?_⟩
  · exact fun hmem2 => h4 (List.mem_append_left _ hmem2)
  · exact fun hmem2 => h4 (List.mem_append_right _ hmem2)

theorem lookupScene_decomp {pre post : List (String × Scene)} {k : String} {s : Scene}
    (hpre : k ∉ pre.map Prod.fst) :
    lookupScene (pre ++ (k, s) :: post) k = some s := by
  rw [lookupScene_append_of_not_mem hpre, lookupScene_cons_self]

theorem updateSceneAt_keys (scenes : List (String × Scene)) (k : String) (f : Scene → Scene) :
    (updateSceneAt scenes k f).map Prod.fst = scenes.map Prod.fst := by
  unfold updateSceneAt
  rw [List.map_map]
  apply List.map_congr_left
  intro ks _
  by_cases h : ks.1 = k <;> simp [h]

theorem updateSceneAt_decomp {pre post : List (String × Scene)} {k : String} {s : Scene}
    (f : Scene → Scene) (hpre : k ∉ pre.map Prod.fst) (hpost : k ∉ post.map Prod.fst) :
    updateSceneAt (pre ++ (k, s) :: post) k f = pre ++ (k, f s) :: post := by
  unfold updateSceneAt
  rw [List.map_append, List.map_cons]
  have hpre2 : pre.map (fun ks => if ks.1 = k then (ks.1, f ks.2) else ks) = pre := by
    apply map_eq_self_of
    intro ks hks
    have hne : ks.1 ≠ k := fun hk => hpre (List.mem_map.mpr ⟨ks, hks, hk⟩)
    simp [hne]
  have hpost2 : post.map (fun ks => if ks.1 = k then (ks.1, f ks.2) else ks) = post := by
    apply map_eq_self_of
    intro ks hks
    have hne : ks.1 ≠ k := fun hk => hpost (List.mem_map.mpr ⟨ks, hks, hk⟩)
    simp [hne]
  simp [hpre2, hpost2]

theorem scenesIds_nil : scenesIds [] = [] := rfl

theorem scenesIds_cons {ks : String × Scene} {rest : List (String × Scene)} :
    scenesIds (ks :: rest) = ks.2.hotSpots.map (fun hs => hs.id) ++ scenesIds rest := rfl

theorem scenesIds_append (a b : List (String × Scene)) :
    scenesIds (a ++ b) = scenesIds a ++ scenesIds b := by
  simp [scenesIds]

theorem keys_map_of_fst_preserving {scenes : List (String × Scene)}
    (f : String × Scene → String × Scene) (h : ∀ ks ∈ scenes, (f ks).1 = ks.1) :
    (scenes.map f).map Prod.fst = scenes.map Prod.fst := by
  rw [List.map_map]
  apply List.map_congr_left
  exact h

theorem scenesIds_map_of_id_preserving {scenes : List (String × Scene)}
    {f : String × Scene → String × Scene}
    (h : ∀ ks ∈ scenes, (f ks).2.hotSpots.map (fun hs => hs.id) =
      ks.2.hotSpots.map (fun hs => hs.id)) :
    scenesIds (scenes.map f) = scenesIds scenes := by
  induction scenes with
  | nil => rfl
  | cons ks rest ih =>
    rw [List.map_cons, scenesIds_cons, scenesIds_cons, h ks (by simp),
      ih (fun b hb => h b (by simp [hb]))]

/-!
## Invariant preservation, operation by operation
-/

theorem inv_addNewScene {t t' : TourConfig} {id path : String} {ml cr : Int}
    (hinv : Inv t) (h : addNewScene t id path ml cr = some t') : Inv t' := by
  obtain ⟨h0, h1, h2, h3, h4⟩ := hinv
  unfold addNewScene at h
  split at h
  · exact absurd h (by simp)
  split at h
  · exact absurd h (by simp)
  rename_i hne htaken
  injection h with h
  subst h
  have hid : id ∉ sceneKeys t := by
    intro hmem
    exact htaken (lookupScene_isSome_iff.mpr hmem)
  have hkeys : sceneKeys { firstScene := (if t.scenes.isEmpty then id else t.firstScene),
                           sceneOrder := t.sceneOrder ++ [id],
                           scenes := t.scenes ++ [(id, mkScene path ml cr)] } =
      sceneKeys t ++ [id] := by
    simp [sceneKeys]
  refine ⟨?_, ?_, ?_, ?_, ?_⟩
  · rw [hkeys]
    exact h0.append (by simp) (fun a ha hb => hid (by simpa [List.mem_singleton.mp hb] using ha))
  · show (scenesIds (t.scenes ++ [(id, mkScene path ml cr)])).Nodup
    rw [scenesIds_append]
    simpa [scenesIds, mkScene] using h1
  · intro ks hks hs hhs
    rw [hkeys]
    rcases List.mem_append.mp hks with hmem | hmem
    · obtain ⟨ha, hb⟩ := h2 ks hmem hs hhs
      exact ⟨List.mem_append_left _ ha, hb⟩
    · rw [List.mem_singleton.mp hmem] at hhs
      exact absurd hhs (by simp [mkScene])
  · unfold InvOrderPerm
    rw [hkeys]
    simpa using h3.append_right [id]
  · unfold InvFirstScene
    rw [hkeys]
    show (if t.scenes.isEmpty = true then id else t.firstScene) = "" ∨
      (if t.scenes.isEmpty = true then id else t.firstScene) ∈ sceneKeys t ++ [id]
    by_cases hE : t.scenes.isEmpty
    · simp [hE]
    · rcases h4 with hF | hF
      · simp [hE, hF]
      · right
        simp only [hE, if_false, Bool.false_eq_true]
        exact List.mem_append_left _ hF

/-- Invariants survive any rewrite of the scene list that keeps the keys,
keeps the hotspot-id list, and keeps targets valid; `sceneOrder` and
`firstScene` untouched. -/
theorem inv_scenes_transport {t : TourConfig} {scenes' : List (String × Scene)}
    (hinv : Inv t)
    (hkeys : scenes'.map Prod.fst = sceneKeys t)
    (hids : (scenesIds scenes').Nodup)
    (htargets : ∀ ks ∈ scenes', ∀ hs ∈ ks.2.hotSpots,
        hs.sceneId ∈ sceneKeys t ∧ hs.sceneId ≠ ks.1) :
    Inv { t with scenes := scenes' } := by
  obtain ⟨h0, h1, h2, h3, h4⟩ := hinv
  have hkeys2 : sceneKeys { t with scenes := scenes' } = sceneKeys t := hkeys
  refine ⟨?_, ?_, ?_, ?_, ?_⟩
  · rw [hkeys2]; exact h0
  · exact hids
  · intro ks hks hs hhs
    rw [hkeys2]
    exact htargets ks hks hs hhs
  · show t.sceneOrder.Perm _
    rw [hkeys2]; exact h3
  · show t.firstScene = "" ∨ t.firstScene ∈ sceneKeys { t with scenes := scenes' }
    rw [hkeys2]; exact h4

theorem updateHotspotReferences_keys (scenes : List (String × Scene)) (s : String)
    (p y hf : Int) :
    (updateHotspotReferences scenes s p y hf).map Prod.fst = scenes.map Prod.fst := by
  unfold updateHotspotReferences
  exact keys_map_of_fst_preserving _ (fun ks _ => rfl)

theorem updateHotspotReferences_ids (scenes : List (String × Scene)) (s : String)
    (p y hf : Int) :
    scenesIds (updateHotspotReferences scenes s p y hf) = scenesIds scenes := by
  unfold updateHotspotReferences
  apply scenesIds_map_of_id_preserving
  intro ks _
  rw [List.map_map]
  apply List.map_congr_left
  intro hs _
  unfold retargetHotspot
  by_cases hsc : hs.sceneId = s <;> simp [hsc]

theorem updateSceneAt_ids_of_hotSpots_id {scenes : List (String × Scene)} {k : String}
    (f : Scene → Scene)
    (hf : ∀ sc : Scene, (f sc).hotSpots.map (fun hs => hs.id) =
      sc.hotSpots.map (fun hs => hs.id)) :
    scenesIds (updateSceneAt scenes k f) = scenesIds scenes := by
  unfold updateSceneAt
  apply scenesIds_map_of_id_preserving
  intro ks _
  by_cases hk : ks.1 = k <;> simp [hk, hf]

theorem inv_captureView {t t' : TourConfig} {s : String} {p y hf : Int} {n : Nat}
    (hinv : Inv t) (h : updateSceneWithCapturedView t s p y hf = some (t', n)) : Inv t' := by
  unfold updateSceneWithCapturedView at h
  split at h
  · exact absurd h (by simp)
  split at h
  · exact absurd h (by simp)
  injection h with h
  injection h with hA hB
  subst hA
  apply inv_scenes_transport hinv
  · rw [updateHotspotReferences_keys]
    exact updateSceneAt_keys t.scenes s _
  · rw [updateHotspotReferences_ids,
      updateSceneAt_ids_of_hotSpots_id (fun sc => { sc with pitch := p, yaw := y, hfov := hf })
        (fun sc => rfl)]
    exact hinv.2.1
  · intro ks hks hs hhs
    obtain ⟨h0, h1, h2, h3, h4⟩ := hinv
    unfold updateHotspotReferences at hks
    obtain ⟨ks1, hks1, rfl⟩ := List.mem_map.mp hks
    simp only at hhs
    obtain ⟨hs1, hhs1, rfl⟩ := List.mem_map.mp hhs
    unfold updateSceneAt at hks1
    obtain ⟨ks0, hks0, rfl⟩ := List.mem_map.mp hks1
    have hmem0 : hs1 ∈ ks0.2.hotSpots := by
      by_cases hk0 : ks0.1 = s
      · simpa [hk0] using hhs1
      · simpa [hk0] using hhs1
    obtain ⟨ha, hb⟩ := h2 ks0 hks0 hs1 hmem0
    have hfst : (if ks0.1 = s then (ks0.1, { ks0.2 with pitch := p, yaw := y, hfov := hf })
        else ks0).1 = ks0.1 := by
      by_cases hk0 : ks0.1 = s <;> simp [hk0]
    have hsid : (retargetHotspot s p y hf hs1).sceneId = hs1.sceneId := by
      unfold retargetHotspot
      by_cases hsc : hs1.sceneId = s <;> simp [hsc]
    rw [hsid, hfst]
    exact ⟨ha, hb⟩

theorem lookup_decomp_of_nodup {t : TourConfig} {k : String} {sc : Scene}
    (hnd : (sceneKeys t).Nodup) (hsc : lookupScene t.scenes k = some sc) :
    ∃ pre post, t.scenes = pre ++ (k, sc) :: post ∧
      k ∉ pre.map Prod.fst ∧ k ∉ post.map Prod.fst := by
  have hmem : k ∈ t.scenes.map Prod.fst := lookupScene_isSome_iff.mp (by rw [hsc]; rfl)
  obtain ⟨pre, s, post, hdec, hpre, hpost⟩ := scenes_decomp_of_mem hmem hnd
  have h2 : lookupScene t.scenes k = some s := by rw [hdec]; exact lookupScene_decomp hpre
  rw [hsc] at h2
  injection h2 with h2
  subst h2
  exact ⟨pre, post, hdec, hpre, hpost⟩

theorem inv_deleteHotspotOp {t t' : TourConfig} {cs : String} {i : Nat}
    (hinv : Inv t) (h : deleteHotspotOp t cs i = some t') : Inv t' := by
  unfold deleteHotspotOp at h
  split at h
  · exact absurd h (by simp)
  split at h
  · exact absurd h (by simp)
  rename_i sc hsc
  split at h
  case isTrue hrange =>
    injection h with h
    subst h
    obtain ⟨pre, post, hdec, hpre, hpost⟩ := lookup_decomp_of_nodup hinv.1 hsc
    apply inv_scenes_transport hinv
    · exact updateSceneAt_keys t.scenes cs _
    · have hnd1 : (scenesIds pre ++ (sc.hotSpots.map (fun hs => hs.id) ++
          scenesIds post)).Nodup := by
        have h1 : (scenesIds t.scenes).Nodup := hinv.2.1
        rw [hdec] at h1
        simpa [scenesIds_append, scenesIds_cons] using h1
      rw [hdec, updateSceneAt_decomp _ hpre hpost]
      simp only [scenesIds_append, scenesIds_cons]
      apply List.Sublist.nodup _ hnd1
      exact (List.Sublist.refl _).append
        ((((sc.hotSpots.eraseIdx_sublist i).map _).append (List.Sublist.refl _)))
    · intro ks hks hs hhs
      rw [hdec, updateSceneAt_decomp _ hpre hpost] at hks
      have hkeys : sceneKeys t = pre.map Prod.fst ++ cs :: post.map Prod.fst := by
        rw [show sceneKeys t = t.scenes.map Prod.fst from rfl, hdec]
        simp
      rcases List.mem_append.mp hks with hmem | hmem
      · exact hinv.2.2.1 ks (by rw [hdec]; exact List.mem_append_left _ hmem) hs hhs
      · rcases List.mem_cons.mp hmem with hmem2 | hmem2
        · subst hmem2
          have hhs2 : hs ∈ sc.hotSpots :=
            (sc.hotSpots.eraseIdx_sublist i).mem (by simpa using hhs)
          exact hinv.2.2.1 (cs, sc) (by rw [hdec]; simp) hs hhs2
        · exact hinv.2.2.1 ks (by rw [hdec]; simp [hmem2]) hs hhs
  case isFalse hrange =>
    injection h with h
    subst h
    exact hinv

/-- Moving the element at index `i` to position `j` permutes the list. -/
theorem eraseIdx_insertIdx_perm {l : List Hotspot} {i j : Nat}
    (hi : i < l.length) (hj : j < l.length) :
    ((l.eraseIdx i).insertIdx j (l.get ⟨i, hi⟩)).Perm l := by
  have hlen : (l.eraseIdx i).length = l.length - 1 := by
    rw [List.length_eraseIdx]
    simp [hi]
  have h1 : ((l.eraseIdx i).insertIdx j (l.get ⟨i, hi⟩)).Perm
      (l.get ⟨i, hi⟩ :: l.eraseIdx i) := by
    apply List.perm_insertIdx
    omega
  have h2 : l.Perm (l.get ⟨i, hi⟩ :: l.eraseIdx i) := by
    conv_lhs => rw [show l = l.take i ++ l.get ⟨i, hi⟩ :: l.drop (i + 1) by
      conv_lhs => rw [← List.take_append_drop i l]
      congr 1
      exact List.drop_eq_getElem_cons hi]
    rw [List.eraseIdx_eq_take_drop_succ]
    exact List.perm_middle
  exact h1.trans h2.symm

theorem inv_moveHotspotOp {t t' : TourConfig} {cs : String} {i j : Nat}
    (hinv : Inv t) (h : moveHotspotOp t cs i j = some t') : Inv t' := by
  unfold moveHotspotOp at h
  split at h
  · injection h with h
    subst h
    exact hinv
  split at h
  · exact absurd h (by simp)
  rename_i sc hsc
  split at h
  case isFalse => exact absurd h (by simp)
  case isTrue hi =>
    split at h
    case isFalse => exact absurd h (by simp)
    case isTrue hj =>
      injection h with h
      subst h
      obtain ⟨pre, post, hdec, hpre, hpost⟩ := lookup_decomp_of_nodup hinv.1 hsc
      have hperm : (((sc.hotSpots.eraseIdx i).insertIdx j (sc.hotSpots.get ⟨i, hi⟩)).map
          (fun hs => hs.id)).Perm (sc.hotSpots.map (fun hs => hs.id)) :=
        (eraseIdx_insertIdx_perm hi hj).map _
      apply inv_scenes_transport hinv
      · exact updateSceneAt_keys t.scenes cs _
      · have hnd1 : (scenesIds pre ++ (sc.hotSpots.map (fun hs => hs.id) ++
            scenesIds post)).Nodup := by
          have h1 : (scenesIds t.scenes).Nodup := hinv.2.1
          rw [hdec] at h1
          simpa [scenesIds_append, scenesIds_cons] using h1
        rw [hdec, updateSceneAt_decomp _ hpre hpost]
        simp only [scenesIds_append, scenesIds_cons]
        apply List.Perm.nodup _ hnd1
        exact (((hperm.append_right _).append_left _)).symm
      · intro ks hks hs hhs
        rw [hdec, updateSceneAt_decomp _ hpre hpost] at hks
        rcases List.mem_append.mp hks with hmem | hmem
        · exact hinv.2.2.1 ks (by rw [hdec]; exact List.mem_append_left _ hmem) hs hhs
        · rcases List.mem_cons.mp hmem with hmem2 | hmem2
          · subst hmem2
            have hhs2 : hs ∈ sc.hotSpots := by
              have := (eraseIdx_insertIdx_perm hi hj).mem_iff.mp (by simpa using hhs)
              exact this
            exact hinv.2.2.1 (cs, sc) (by rw [hdec]; simp) hs hhs2
          · exact hinv.2.2.1 ks (by rw [hdec]; simp [hmem2]) hs hhs

/-- Package the invariants against an explicit record. -/
theorem inv_mk {fs : String} {ord : List String} {scenes : List (String × Scene)}
    (hk : (scenes.map Prod.fst).Nodup)
    (hi : (scenesIds scenes).Nodup)
    (ht : ∀ ks ∈ scenes, ∀ hs ∈ ks.2.hotSpots,
        hs.sceneId ∈ scenes.map Prod.fst ∧ hs.sceneId ≠ ks.1)
    (ho : ord.Perm (scenes.map Prod.fst))
    (hf : fs = "" ∨ fs ∈ scenes.map Prod.fst) :
    Inv { firstScene := fs, sceneOrder := ord, scenes := scenes } :=
  ⟨hk, hi, ht, ho, hf⟩

theorem filter_keys (scenes : List (String × Scene)) (x : String) :
    (scenes.filter (fun ks => ks.1 ≠ x)).map Prod.fst =
      (scenes.map Prod.fst).filter (fun k => k ≠ x) := by
  induction scenes with
  | nil => rfl
  | cons ks rest ih =>
    simp only [decide_not] at ih ⊢
    by_cases hk : ks.1 = x <;> simp [List.filter_cons, hk, ih]

theorem scenesIds_delete_sublist (scenes : List (String × Scene)) (x : String) :
    List.Sublist
      (scenesIds ((scenes.filter (fun ks => ks.1 ≠ x)).map
        (fun ks => (ks.1,
          { ks.2 with hotSpots := ks.2.hotSpots.filter (fun hs => hs.sceneId ≠ x) }))))
      (scenesIds scenes) := by
  induction scenes with
  | nil => simp [scenesIds]
  | cons ks rest ih =>
    by_cases hk : ks.1 = x
    · rw [List.filter_cons, if_neg (by simp [hk]), scenesIds_cons]
      exact ih.trans (List.sublist_append_right _ _)
    · rw [List.filter_cons, if_pos (by simp [hk]), List.map_cons, scenesIds_cons,
        scenesIds_cons]
      exact ((List.filter_sublist _).map _).append ih

theorem inv_deleteScene {t t' : TourConfig} {x : String}
    (hinv : Inv t) (h : deleteScene t x = some t') : Inv t' := by
  obtain ⟨h0, h1, h2, h3, h4⟩ := hinv
  unfold deleteScene at h
  split at h
  · exact absurd h (by simp)
  rename_i hxne
  injection h with h
  subst h
  unfold deleteSceneCore
  have hkeys : ((t.scenes.filter (fun ks => ks.1 ≠ x)).map
      (fun ks => (ks.1,
        { ks.2 with hotSpots := ks.2.hotSpots.filter (fun hs => hs.sceneId ≠ x) }))).map
      Prod.fst = (t.scenes.map Prod.fst).filter (fun k => k ≠ x) := by
    rw [List.map_map]
    exact (List.map_congr_left (fun ks _ => rfl)).trans (filter_keys t.scenes x)
  apply inv_mk
  · rw [hkeys]
    exact (List.filter_sublist _).nodup h0
  · exact (scenesIds_delete_sublist t.scenes x).nodup h1
  · intro ks hks hs hhs
    rw [hkeys]
    obtain ⟨ks1, hks1, rfl⟩ := List.mem_map.mp hks
    have hmem1 := List.mem_filter.mp hks1
    simp only at hhs
    have hmem2 := List.mem_filter.mp hhs
    obtain ⟨ha, hb⟩ := h2 ks1 hmem1.1 hs hmem2.1
    exact ⟨List.mem_filter.mpr ⟨ha, hmem2.2⟩, hb⟩
  · rw [hkeys]
    have heq : (t.scenes.map Prod.fst).erase x =
        (t.scenes.map Prod.fst).filter (fun k => k ≠ x) := by
      have := List.Nodup.erase_eq_filter h0 x
      simpa using this
    rw [← heq]
    exact h3.erase x
  · by_cases hF : t.firstScene = x
    · rw [if_pos hF]
      cases hC : t.scenes.filter (fun ks => ks.1 ≠ x) with
      | nil => left; rfl
      | cons ks1 tl =>
        right
        simp
    · simp only [if_neg hF]
      rcases h4 with hE | hE
      · left; exact hE
      · right
        rw [hkeys]
        exact List.mem_filter.mpr ⟨hE, by simpa using hF⟩

theorem replaceFirst_of_not_mem {old new : String} {l : List String} (h : old ∉ l) :
    replaceFirst old new l = l := by
  induction l with
  | nil => rfl
  | cons k rest ih =>
    have hk : k ≠ old := fun hk => h (by simp [hk])
    rw [replaceFirst, if_neg hk, ih (fun hm => h (by simp [hm]))]

theorem map_subst_of_not_mem {old new : String} {l : List String} (h : old ∉ l) :
    l.map (fun k => if k = old then new else k) = l := by
  apply map_eq_self_of
  intro a ha
  have : a ≠ old := fun hk => h (hk ▸ ha)
  simp [this]

theorem replaceFirst_eq_map_of_nodup {old new : String} {l : List String} (h : l.Nodup) :
    replaceFirst old new l = l.map (fun k => if k = old then new else k) := by
  induction l with
  | nil => rfl
  | cons k rest ih =>
    obtain ⟨hk, hrest⟩ := List.nodup_cons.mp h
    by_cases hko : k = old
    · subst hko
      rw [replaceFirst, if_pos rfl, List.map_cons, if_pos rfl,
        map_subst_of_not_mem hk]
    · rw [replaceFirst, if_neg hko, List.map_cons, if_neg hko, ih hrest]

theorem inv_renameScene {t t' : TourConfig} {old new : String}
    (hOld : old ∈ sceneKeys t) (hinv : Inv t) (h : renameScene t old new = some t') :
    Inv t' := by
  obtain ⟨h0, h1, h2, h3, h4⟩ := hinv
  unfold renameScene at h
  split at h
  · exact absurd h (by simp)
  split at h
  · exact absurd h (by simp)
  split at h
  case isTrue heq =>
    injection h with h
    subst h
    exact ⟨h0, h1, h2, h3, h4⟩
  case isFalse heq =>
  split at h
  · exact absurd h (by simp)
  rename_i hne hpat htaken
  injection h with h
  subst h
  have hnew : new ∉ t.scenes.map Prod.fst := fun hmem =>
    htaken (lookupScene_isSome_iff.mpr hmem)
  have hOld2 : old ∈ t.scenes.map Prod.fst := hOld
  have hkeys : (t.scenes.map (fun ks =>
      ((if ks.1 = old then new else ks.1),
       { ks.2 with hotSpots := ks.2.hotSpots.map (repointHotspot old new) }))).map Prod.fst =
      (t.scenes.map Prod.fst).map (fun k => if k = old then new else k) := by
    rw [List.map_map, List.map_map]
    rfl
  have hordnd : t.sceneOrder.Nodup := h3.symm.nodup h0
  apply inv_mk
  · rw [hkeys]
    apply List.Nodup.map_on _ h0
    intro a ha b hb hab
    by_cases hao : a = old <;> by_cases hbo : b = old
    · rw [hao, hbo]
    · rw [if_pos hao, if_neg hbo] at hab
      exact absurd (hab ▸ hb) hnew
    · rw [if_neg hao, if_pos hbo] at hab
      exact absurd (hab ▸ ha) hnew
    · rwa [if_neg hao, if_neg hbo] at hab
  · rw [scenesIds_map_of_id_preserving]
    · exact h1
    · intro ks _
      rw [List.map_map]
      apply List.map_congr_left
      intro hs _
      unfold repointHotspot
      by_cases hsc : hs.sceneId = old <;> simp [hsc]
  · intro ks hks hs hhs
    rw [hkeys]
    obtain ⟨ks1, hks1, rfl⟩ := List.mem_map.mp hks
    simp only at hhs
    obtain ⟨hs1, hhs1, rfl⟩ := List.mem_map.mp hhs
    obtain ⟨ha, hb⟩ := h2 ks1 hks1 hs1 hhs1
    unfold repointHotspot
    by_cases hsc : hs1.sceneId = old
    · rw [if_pos hsc]
      simp only
      constructor
      · exact List.mem_map.mpr ⟨old, hOld2, by rw [if_pos rfl]⟩
      · by_cases hk1 : ks1.1 = old
        · exact absurd (hsc.trans hk1.symm) hb
        · rw [if_neg hk1]
          intro hc
          apply hnew
          rw [hc]
          exact List.mem_map.mpr ⟨ks1, hks1, rfl⟩
    · rw [if_neg hsc]
      constructor
      · exact List.mem_map.mpr ⟨hs1.sceneId, ha, by rw [if_neg hsc]⟩
      · by_cases hk1 : ks1.1 = old
        · rw [if_pos hk1]
          show hs1.sceneId ≠ new
          exact fun hc => hnew (hc ▸ ha)
        · rw [if_neg hk1]
          exact hb
  · rw [hkeys, replaceFirst_eq_map_of_nodup hordnd]
    exact h3.map _
  · rw [hkeys]
    by_cases hF : t.firstScene = old
    · right
      rw [if_pos hF]
      exact List.mem_map.mpr ⟨old, hOld2, by rw [if_pos rfl]⟩
    · rw [if_neg hF]
      rcases h4 with hE | hE
      · left; exact hE
      · right
        exact List.mem_map.mpr ⟨t.firstScene, hE, by rw [if_neg hF]⟩

theorem rebuildScenes_eq_filterMap {scenes : List (String × Scene)} :
    ∀ {newOrder seen : List String}, newOrder.Nodup → (∀ k ∈ newOrder, k ∉ seen) →
    rebuildScenes scenes seen newOrder =
      newOrder.filterMap (fun k => (lookupScene scenes k).map (fun s => (k, s))) := by
  intro newOrder
  induction newOrder with
  | nil => intro seen _ _; rfl
  | cons k rest ih =>
    intro seen hnd hseen
    obtain ⟨hk, hrest⟩ := List.nodup_cons.mp hnd
    rw [rebuildScenes, if_neg (hseen k (by simp)), List.filterMap_cons]
    cases hL : lookupScene scenes k with
    | none =>
      simp only
      exact ih hrest (fun k' hk' => hseen k' (by simp [hk']))
    | some s =>
      simp only [Option.map_some']
      rw [ih hrest]
      intro k' hk'
      simp only [List.mem_cons]
      rintro (hc | hc)
      · exact hk (hc ▸ hk')
      · exact hseen k' (by simp [hk']) hc

theorem filterMap_lookup_self {scenes : List (String × Scene)}
    (hnd : (scenes.map Prod.fst).Nodup) :
    (scenes.map Prod.fst).filterMap
      (fun k => (lookupScene scenes k).map (fun s => (k, s))) = scenes := by
  induction scenes with
  | nil => rfl
  | cons ks rest ih =>
    rw [List.map_cons] at hnd
    obtain ⟨hk, hrest⟩ := List.nodup_cons.mp hnd
    rw [List.map_cons, List.filterMap_cons]
    have hself : lookupScene (ks :: rest) ks.1 = some ks.2 := by
      rw [show ks :: rest = (ks.1, ks.2) :: rest from rfl]
      exact lookupScene_cons_self
    rw [hself]
    simp only [Option.map_some']
    have hcongr : (rest.map Prod.fst).filterMap
        (fun k => (lookupScene (ks :: rest) k).map (fun s => (k, s))) =
        (rest.map Prod.fst).filterMap
        (fun k => (lookupScene rest k).map (fun s => (k, s))) := by
      apply List.filterMap_congr
      intro k hkm
      have hne : ks.1 ≠ k := fun hc => hk (hc ▸ hkm)
      rw [show ks :: rest = (ks.1, ks.2) :: rest from rfl, lookupScene_cons_ne hne]
    rw [hcongr, ih hrest]

theorem filterMap_lookup_keys {scenes : List (String × Scene)} {l : List String}
    (h : ∀ k ∈ l, k ∈ scenes.map Prod.fst) :
    (l.filterMap (fun k => (lookupScene scenes k).map (fun s => (k, s)))).map Prod.fst = l := by
  induction l with
  | nil => rfl
  | cons k rest ih =>
    rw [List.filterMap_cons]
    cases hL : lookupScene scenes k with
    | none =>
      have := lookupScene_isSome_iff.mpr (h k (by simp))
      rw [hL] at this
      exact absurd this (by simp)
    | some s =>
      simp only [Option.map_some']
      rw [List.map_cons, ih (fun k' hk' => h k' (by simp [hk']))]

theorem inv_reorderScenes {t : TourConfig} {newOrder : List String}
    (hinv : Inv t) (hperm : newOrder.Perm (sceneKeys t)) : Inv (reorderScenes t newOrder) := by
  obtain ⟨h0, h1, h2, h3, h4⟩ := hinv
  have hperm2 : newOrder.Perm (t.scenes.map Prod.fst) := hperm
  have hndNew : newOrder.Nodup := hperm2.symm.nodup h0
  have hre : rebuildScenes t.scenes [] newOrder =
      newOrder.filterMap (fun k => (lookupScene t.scenes k).map (fun s => (k, s))) :=
    rebuildScenes_eq_filterMap hndNew (by simp)
  have hsc : (rebuildScenes t.scenes [] newOrder).Perm t.scenes := by
    rw [hre]
    have hstep := hperm2.filterMap (fun k => (lookupScene t.scenes k).map (fun s => (k, s)))
    rw [filterMap_lookup_self h0] at hstep
    exact hstep
  have hkeys : (rebuildScenes t.scenes [] newOrder).map Prod.fst = newOrder := by
    rw [hre]
    exact filterMap_lookup_keys (fun k hk => hperm2.subset hk)
  unfold reorderScenes
  apply inv_mk
  · rw [hkeys]; exact hndNew
  · have hpids : (scenesIds (rebuildScenes t.scenes [] newOrder)).Perm
        (scenesIds t.scenes) := hsc.flatMap_right _
    exact hpids.symm.nodup h1
  · intro ks hks hs hhs
    rw [hkeys]
    obtain ⟨ha, hb⟩ := h2 ks (hsc.subset hks) hs hhs
    exact ⟨hperm2.mem_iff.mpr ha, hb⟩
  · rw [hkeys]
  · rw [hkeys]
    rcases h4 with hE | hE
    · left; exact hE
    · right; exact hperm2.mem_iff.mpr hE

/-!
## Characterising the duplicate-id scan of `validateHotspotId`
-/

theorem findDupHotspot_eq_false_iff {hid : String} {same : Bool} {ex : Int} :
    ∀ {i : Nat} {l : List Hotspot},
    findDupHotspot hid same ex i l = false ↔
      ∀ j, (hj : j < l.length) → ¬(same = true ∧ ((i + j : Nat) : Int) = ex) →
        (l.get ⟨j, hj⟩).id ≠ hid := by
  intro i l
  induction l generalizing i with
  | nil => simp [findDupHotspot]
  | cons hs rest ih =>
    have harith : ∀ j' : Nat, i + (j' + 1) = (i + 1) + j' := by omega
    rw [findDupHotspot]
    by_cases hskip : (same && ((i : Int) == ex)) = true
    · rw [if_pos (by simpa using hskip)]
      obtain ⟨hsame, hieq⟩ : same = true ∧ (i : Int) = ex := by
        constructor
        · exact (Bool.and_eq_true_iff.mp hskip).1
        · exact beq_iff_eq.mp (Bool.and_eq_true_iff.mp hskip).2
      rw [ih]
      constructor
      · intro h j hj hcond
        cases j with
        | zero =>
          exfalso
          apply hcond
          exact ⟨hsame, by simpa using hieq⟩
        | succ j' =>
          have hj' : j' < rest.length := by
            simpa using Nat.lt_of_succ_lt_succ (by simpa using hj)
          have := h j' hj' (by rw [← harith j']; exact hcond)
          simpa using this
      · intro h j hj hcond
        have := h (j + 1) (by simpa using Nat.succ_lt_succ hj)
          (by rw [harith j]; exact hcond)
        simpa using this
    · rw [if_neg (by simpa using hskip)]
      have hnskip : ¬(same = true ∧ (i : Int) = ex) := by
        intro hc
        apply hskip
        rw [Bool.and_eq_true_iff]
        exact ⟨hc.1, beq_iff_eq.mpr hc.2⟩
      by_cases hhead : hs.id = hid
      · rw [if_pos hhead]
        constructor
        · intro h; exact absurd h (by simp)
        · intro h
          exact absurd hhead (h 0 (by simp) (by simpa using hnskip))
      · rw [if_neg hhead, ih]
        constructor
        · intro h j hj hcond
          cases j with
          | zero => simpa using hhead
          | succ j' =>
            have hj' : j' < rest.length := by
              simpa using Nat.lt_of_succ_lt_succ (by simpa using hj)
            have := h j' hj' (by rw [← harith j']; exact hcond)
            simpa using this
        · intro h j hj hcond
          have := h (j + 1) (by simpa using Nat.succ_lt_succ hj)
            (by rw [harith j]; exact hcond)
          simpa using this

theorem findDupScene_eq_none_iff {hid sceneId : String} {ex : Int}
    {scenes : List (String × Scene)} :
    findDupScene hid sceneId ex scenes = none ↔
      ∀ ks ∈ scenes, ∀ j, (hj : j < ks.2.hotSpots.length) →
        ¬(ks.1 = sceneId ∧ (j : Int) = ex) → (ks.2.hotSpots.get ⟨j, hj⟩).id ≠ hid := by
  induction scenes with
  | nil => simp [findDupScene]
  | cons ks rest ih =>
    rw [findDupScene]
    by_cases hfind : findDupHotspot hid (ks.1 = sceneId) ex 0 ks.2.hotSpots = true
    · rw [if_pos hfind]
      constructor
      · intro h; exact absurd h (by simp)
      · intro h
        exfalso
        rw [← Bool.not_eq_false, findDupHotspot_eq_false_iff] at hfind
        apply hfind
        intro j hj hcond
        apply h ks (by simp) j hj
        intro hc
        apply hcond
        refine ⟨by simp [hc.1], by simpa using hc.2⟩
    · rw [if_neg hfind, ih]
      rw [Bool.not_eq_true, findDupHotspot_eq_false_iff] at hfind
      constructor
      · intro h ks' hks' j hj hcond
        rcases List.mem_cons.mp hks' with hc | hc
        · subst hc
          apply hfind j hj
          intro hcc
          apply hcond
          refine ⟨by simpa using hcc.1, by simpa using hcc.2⟩
        · exact h ks' hc j hj hcond
      · intro h ks' hks' j hj hcond
        exact h ks' (by simp [hks']) j hj hcond

/-- A non-blank id that the validator accepts (with nothing excluded) occurs
nowhere in the document. -/
theorem validateHotspotId_valid_not_mem {t : TourConfig} {hid sceneId : String}
    (hne : hid ≠ "") (h : validateHotspotId t hid sceneId (-1) = .valid) :
    hid ∉ scenesIds t.scenes := by
  unfold validateHotspotId at h
  rw [if_neg hne] at h
  split at h
  · exact absurd h (by simp)
  rename_i hpat
  split at h
  · exact absurd h (by simp)
  rename_i hdup
  intro hmem
  unfold scenesIds at hmem
  obtain ⟨ks, hks, hmem2⟩ := List.mem_flatMap.mp hmem
  obtain ⟨hs, hhs, hid2⟩ := List.mem_map.mp hmem2
  obtain ⟨⟨j, hj⟩, hget⟩ := List.mem_iff_get.mp hhs
  have := findDupScene_eq_none_iff.mp hdup ks hks j hj
    (by intro hc; omega)
  rw [hget] at this
  exact this hid2

/-- What the validator accepts while editing slot `(sceneId, i)`: every
position other than the excluded one is free of `hid`. -/
theorem validateHotspotId_valid_excluded {t : TourConfig} {hid sceneId : String} {i : Nat}
    (hne : hid ≠ "") (h : validateHotspotId t hid sceneId (i : Int) = .valid) :
    ∀ ks ∈ t.scenes, ∀ j, (hj : j < ks.2.hotSpots.length) →
      ¬(ks.1 = sceneId ∧ j = i) → (ks.2.hotSpots.get ⟨j, hj⟩).id ≠ hid := by
  unfold validateHotspotId at h
  rw [if_neg hne] at h
  split at h
  · exact absurd h (by simp)
  split at h
  · exact absurd h (by simp)
  rename_i hdup
  intro ks hks j hj hcond
  apply findDupScene_eq_none_iff.mp hdup ks hks j hj
  intro hc
  apply hcond
  refine ⟨hc.1, ?_⟩
  have := hc.2
  omega

theorem mkHotspotData_id (t : TourConfig) (text hid target : String) (hp hy : Int) :
    (mkHotspotData t text hid target hp hy).id = hid := rfl

theorem mkHotspotData_sceneId (t : TourConfig) (text hid target : String) (hp hy : Int) :
    (mkHotspotData t text hid target hp hy).sceneId = target := rfl

theorem append_middle_cons_perm {α : Type} (A T D C : List α) (x : α) :
    (A ++ ((T ++ x :: D) ++ C)).Perm (x :: (A ++ (T ++ (D ++ C)))) := by
  have h1 : A ++ ((T ++ x :: D) ++ C) = (A ++ T) ++ x :: (D ++ C) := by
    simp [List.append_assoc]
  have h2 : x :: (A ++ (T ++ (D ++ C))) = x :: ((A ++ T) ++ (D ++ C)) := by
    simp [List.append_assoc]
  rw [h1, h2]
  exact List.perm_middle

theorem mem_scenesIds_exists {scenes : List (String × Scene)} {x : String}
    (h : x ∈ scenesIds scenes) : ∃ ks ∈ scenes, ∃ hs ∈ ks.2.hotSpots, hs.id = x := by
  unfold scenesIds at h
  obtain ⟨ks, hks, h2⟩ := List.mem_flatMap.mp h
  obtain ⟨hs, hhs, h3⟩ := List.mem_map.mp h2
  exact ⟨ks, hks, hs, hhs, h3⟩

theorem inv_confirmAddHotspot_add {t t' : TourConfig} {c c' : Nat}
    {owner text hid target : String} {hp hy : Int}
    (hinv : Inv t) (hHid : hid ≠ "") (hTarget : target ∈ sceneKeys t) (hSelf : target ≠ owner)
    (h : confirmAddHotspot t c owner text hid target hp hy none = some (t', c')) : Inv t' := by
  simp only [confirmAddHotspot] at h
  split at h
  · exact absurd h (by simp)
  split at h
  · exact absurd h (by simp)
  rename_i sc hsc
  split at h
  · exact absurd h (by simp)
  split at h
  · exact absurd h (by simp)
  rename_i hTne hvalne
  have hval : validateHotspotId t hid owner (-1) = .valid := by
    have := Decidable.not_not.mp hvalne
    simpa using this
  have hfresh : hid ∉ scenesIds t.scenes := validateHotspotId_valid_not_mem hHid hval
  injection h with h
  injection h with hA hB
  subst hA
  obtain ⟨pre, post, hdec, hpre, hpost⟩ := lookup_decomp_of_nodup hinv.1 hsc
  have hids0 : scenesIds t.scenes =
      scenesIds pre ++ (sc.hotSpots.map (fun hs => hs.id) ++ scenesIds post) := by
    rw [hdec, scenesIds_append, scenesIds_cons]
  apply inv_scenes_transport hinv
  · exact updateSceneAt_keys t.scenes owner _
  · rw [hdec, updateSceneAt_decomp _ hpre hpost]
    simp only [scenesIds_append, scenesIds_cons, List.map_append, List.map_cons, List.map_nil]
    apply List.Perm.nodup (append_middle_cons_perm (scenesIds pre)
      (sc.hotSpots.map (fun hs => hs.id)) [] (scenesIds post) _).symm
    apply List.nodup_cons.mpr
    constructor
    · rw [mkHotspotData_id]
      simp only [List.nil_append]
      rw [← hids0]
      exact hfresh
    · simp only [List.nil_append]
      rw [← hids0]
      exact hinv.2.1
  · intro ks hks hs hhs
    rw [hdec, updateSceneAt_decomp _ hpre hpost] at hks
    rcases List.mem_append.mp hks with hmem | hmem
    · exact hinv.2.2.1 ks (by rw [hdec]; exact List.mem_append_left _ hmem) hs hhs
    · rcases List.mem_cons.mp hmem with hmem2 | hmem2
      · subst hmem2
        simp only at hhs
        rcases List.mem_append.mp hhs with hh | hh
        · exact hinv.2.2.1 (owner, sc) (by rw [hdec]; simp) hs hh
        · rw [List.mem_singleton.mp hh]
          rw [mkHotspotData_sceneId]
          exact ⟨hTarget, hSelf⟩
      · exact hinv.2.2.1 ks (by rw [hdec]; simp [hmem2]) hs hhs

theorem inv_confirmAddHotspot_edit {t t' : TourConfig} {c c' : Nat}
    {owner text hid target : String} {hp hy : Int} {i : Nat}
    (hinv : Inv t) (hHid : hid ≠ "") (hTarget : target ∈ sceneKeys t) (hSelf : target ≠ owner)
    (h : confirmAddHotspot t c owner text hid target hp hy (some i) = some (t', c')) :
    Inv t' := by
  simp only [confirmAddHotspot] at h
  split at h
  · exact absurd h (by simp)
  split at h
  · exact absurd h (by simp)
  rename_i sc hsc
  split at h
  · exact absurd h (by simp)
  split at h
  · exact absurd h (by simp)
  rename_i hTne hvalne
  have hval : validateHotspotId t hid owner (i : Int) = .valid := by
    have := Decidable.not_not.mp hvalne
    simpa using this
  have hexcl := validateHotspotId_valid_excluded hHid hval
  split at h
  case isFalse => exact absurd h (by simp)
  case isTrue hi =>
  injection h with h
  injection h with hA hB
  subst hA
  obtain ⟨pre, post, hdec, hpre, hpost⟩ := lookup_decomp_of_nodup hinv.1 hsc
  have howner : (owner, sc) ∈ t.scenes := by rw [hdec]; simp
  have hilen : i < (sc.hotSpots.map (fun hs => hs.id)).length := by simpa using hi
  have hids0 : scenesIds t.scenes =
      scenesIds pre ++ (sc.hotSpots.map (fun hs => hs.id) ++ scenesIds post) := by
    rw [hdec, scenesIds_append, scenesIds_cons]
  apply inv_scenes_transport hinv
  · exact updateSceneAt_keys t.scenes owner _
  · rw [hdec, updateSceneAt_decomp _ hpre hpost]
    simp only [scenesIds_append, scenesIds_cons, List.map_set]
    set ids := sc.hotSpots.map (fun hs => hs.id) with hids
    set x := (mkHotspotData t (if text = "" then target else text) hid target hp hy).id
      with hx
    have hset : ids.set i x = ids.take i ++ x :: ids.drop (i + 1) :=
      List.set_eq_take_cons_drop x hilen
    have hsplit : ids = ids.take i ++ ids.get ⟨i, hilen⟩ :: ids.drop (i + 1) := by
      conv_lhs => rw [← List.take_append_drop i ids]
      congr 1
      exact List.drop_eq_getElem_cons hilen
    have hperm1 := append_middle_cons_perm (scenesIds pre) (ids.take i) (ids.drop (i + 1))
      (scenesIds post) x
    have hperm0 := append_middle_cons_perm (scenesIds pre) (ids.take i) (ids.drop (i + 1))
      (scenesIds post) (ids.get ⟨i, hilen⟩)
    have hnd0 : (ids.get ⟨i, hilen⟩ ::
        (scenesIds pre ++ (ids.take i ++ (ids.drop (i + 1) ++ scenesIds post)))).Nodup := by
      apply hperm0.nodup
      rw [← hsplit, ← hids0]
      exact hinv.2.1
    have hndR : (scenesIds pre ++ (ids.take i ++ (ids.drop (i + 1) ++ scenesIds post))).Nodup :=
      (List.nodup_cons.mp hnd0).2
    rw [hset]
    apply List.Perm.nodup hperm1.symm
    apply List.nodup_cons.mpr
    refine ⟨?_, hndR⟩
    rw [hx, mkHotspotData_id]
    intro hmem
    rcases List.mem_append.mp hmem with hm | hm
    · obtain ⟨ks1, hks1, hs1, hhs1, hid1⟩ := mem_scenesIds_exists hm
      obtain ⟨⟨j, hj⟩, hget⟩ := List.mem_iff_get.mp hhs1
      have hne1 : ks1.1 ≠ owner := by
        intro hc
        exact hpre (hc ▸ List.mem_map.mpr ⟨ks1, hks1, rfl⟩)
      have := hexcl ks1 (by rw [hdec]; exact List.mem_append_left _ hks1) j hj
        (fun hc => hne1 hc.1)
      rw [hget] at this
      exact this hid1
    rcases List.mem_append.mp hm with hm2 | hm2
    · rw [List.mem_take_iff_getElem] at hm2
      obtain ⟨j, hj, hget⟩ := hm2
      have hjlen : j < sc.hotSpots.length := by
        have := hj
        simp only [hids] at this
        simp at this
        omega
      have hji : j < i := by omega
      have := hexcl (owner, sc) howner j hjlen (fun hc => by omega)
      apply this
      rw [← hget]
      simp [hids, List.getElem_take]
    rcases List.mem_append.mp hm2 with hm3 | hm3
    · rw [List.mem_drop_iff_getElem] at hm3
      obtain ⟨j, hj, hget⟩ := hm3
      have hjlen : (i + 1) + j < sc.hotSpots.length := by
        simp only [hids] at hj
        simp at hj
        omega
      have := hexcl (owner, sc) howner ((i + 1) + j) hjlen (fun hc => by omega)
      apply this
      rw [← hget]
      simp [hids, List.getElem_drop]
    · obtain ⟨ks1, hks1, hs1, hhs1, hid1⟩ := mem_scenesIds_exists hm3
      obtain ⟨⟨j, hj⟩, hget⟩ := List.mem_iff_get.mp hhs1
      have hne1 : ks1.1 ≠ owner := by
        intro hc
        exact hpost (hc ▸ List.mem_map.mpr ⟨ks1, hks1, rfl⟩)
      have := hexcl ks1 (by rw [hdec]; simp [hks1]) j hj (fun hc => hne1 hc.1)
      rw [hget] at this
      exact this hid1
  · intro ks hks hs hhs
    rw [hdec, updateSceneAt_decomp _ hpre hpost] at hks
    rcases List.mem_append.mp hks with hmem | hmem
    · exact hinv.2.2.1 ks (by rw [hdec]; exact List.mem_append_left _ hmem) hs hhs
    · rcases List.mem_cons.mp hmem with hmem2 | hmem2
      · subst hmem2
        simp only at hhs
        rcases List.mem_or_eq_of_mem_set hhs with hh | hh
        · exact hinv.2.2.1 (owner, sc) howner hs hh
        · rw [hh, mkHotspotData_sceneId]
          exact ⟨hTarget, hSelf⟩
      · exact hinv.2.2.1 ks (by rw [hdec]; simp [hmem2]) hs hhs

/-- Single-step invariant preservation over the restricted operation set. -/
theorem inv_step {t t' : TourConfig} (hinv : Inv t) (h : Step t t') : Inv t' := by
  cases h with
  | addScene h => exact inv_addNewScene hinv h
  | renameScene hOld h => exact inv_renameScene hOld hinv h
  | deleteScene h => exact inv_deleteScene hinv h
  | addHotspot hHid hTarget hSelf h => exact inv_confirmAddHotspot_add hinv hHid hTarget hSelf h
  | editHotspot hHid hTarget hSelf h => exact inv_confirmAddHotspot_edit hinv hHid hTarget hSelf h
  | deleteHotspot h => exact inv_deleteHotspotOp hinv h
  | moveHotspot h => exact inv_moveHotspotOp hinv h
  | reorderScenes hPerm => exact inv_reorderScenes hinv hPerm
  | captureView hCap => exact inv_captureView hinv hCap

/-!
## Claim C1
-/

/-- A valid two-scene document whose first scene is "A". -/
def docC1 : TourConfig :=
  { firstScene := "A", sceneOrder := ["A", "B"],
    scenes := [("A", mkScene "tiles/a/" 5 8192), ("B", mkScene "tiles/b/" 5 8192)] }

/-- **C1, counterexample.**  The claim as stated is false: `reorderScenes`
is one of the listed operations, it completes successfully on every input
(the source has no rejection path, lines 1404-1435), and called on the
valid document `docC1` with the non-permutation `["B"]` it leaves
`firstScene = "A"` dangling — invariant 4 is violated after a single
successfully completed step. -/
theorem C1_counterexample : Inv docC1 ∧ ¬ Inv (reorderScenes docC1 ["B"]) := by decide

/-- **C1 (amended).**  For every sequence of successfully completing
operations (addScene, renameScene, deleteScene, addHotspot, editHotspot,
deleteHotspot, reorderHotspots, reorderScenes, captureView) in which,
additionally, every `reorderScenes` argument is a permutation of the
current scene keys, every `renameScene` old id exists in the document, and
every hotspot add/edit supplies a non-empty explicit id and an existing
target scene distinct from its owner, the four global invariants (together
with scene-key uniqueness) hold after every step. -/
theorem C1_invariants_hold (t t' : TourConfig) (hinv : Inv t) (h : Steps t t') : Inv t' := by
  induction h with
  | refl => exact hinv
  | tail _ hstep ih => exact inv_step ih hstep

/-- The document produced by adding scene "lobby" to the empty document. -/
def docC1w : TourConfig :=
  { firstScene := "lobby", sceneOrder := ["lobby"],
    scenes := [("lobby", mkScene "tiles/lobby/" 5 8192)] }

theorem C1_invariants_hold_witness : Inv docC1w :=
  C1_invariants_hold initialConfig docC1w (by decide)
    (Relation.ReflTransGen.single (Step.addScene
      (show addNewScene initialConfig "lobby" "tiles/lobby/" 5 8192 = some docC1w by decide)))

/-!
## Claim C2
-/

/-- A valid two-scene document. -/
def docC2 : TourConfig :=
  { firstScene := "A", sceneOrder := ["A", "B"],
    scenes := [("A", mkScene "tiles/a/" 5 8192), ("B", mkScene "tiles/b/" 5 8192)] }

/-- **C2, counterexample.**  `["A"]` is not a permutation of the scene ids
of `docC2`, yet `reorderScenes docC2 ["A"]` is not rejected: the document
changes, and `sceneOrder` is replaced by `["A"]` even though `["A"]` is no
permutation — refuting both "rejected and unchanged" and "replaces
sceneOrder only when a permutation". -/
theorem C2_counterexample :
    ¬ (["A"].Perm (sceneKeys docC2)) ∧ reorderScenes docC2 ["A"] ≠ docC2 ∧
      (reorderScenes docC2 ["A"]).sceneOrder = ["A"] := by decide

/-- **C2 (amended).**  `reorderScenes(newOrder)` performs no validation:
it unconditionally replaces `sceneOrder` with `newOrder` and rebuilds the
scene map to hold exactly the scenes named by `newOrder`, in that order,
dropping scenes missing from `newOrder` (stated here for duplicate-free
`newOrder`; a repeated id keeps its first position).  When `newOrder` is a
permutation of the existing scene ids this is a pure reorder: the key list
becomes `newOrder` and the scene map is a permutation of the original. -/
theorem C2_reorderScenes_applies_unconditionally (t : TourConfig) (newOrder : List String)
    (hnd : newOrder.Nodup) :
    (reorderScenes t newOrder).sceneOrder = newOrder ∧
    (reorderScenes t newOrder).scenes =
      newOrder.filterMap (fun k => (lookupScene t.scenes k).map (fun s => (k, s))) ∧
    (newOrder.Perm (sceneKeys t) → (sceneKeys t).Nodup →
      sceneKeys (reorderScenes t newOrder) = newOrder ∧
      (reorderScenes t newOrder).scenes.Perm t.scenes) := by
  refine ⟨rfl, rebuildScenes_eq_filterMap hnd (by simp), ?_⟩
  intro hperm h0
  have hperm2 : newOrder.Perm (t.scenes.map Prod.fst) := hperm
  have hre : rebuildScenes t.scenes [] newOrder =
      newOrder.filterMap (fun k => (lookupScene t.scenes k).map (fun s => (k, s))) :=
    rebuildScenes_eq_filterMap hnd (by simp)
  constructor
  · show (rebuildScenes t.scenes [] newOrder).map Prod.fst = newOrder
    rw [hre]
    exact filterMap_lookup_keys (fun k hk => hperm2.subset hk)
  · show (rebuildScenes t.scenes [] newOrder).Perm t.scenes
    rw [hre]
    have hstep := hperm2.filterMap (fun k => (lookupScene t.scenes k).map (fun s => (k, s)))
    rw [filterMap_lookup_self h0] at hstep
    exact hstep

theorem C2_reorderScenes_applies_unconditionally_witness :
    (reorderScenes docC2 ["B", "A"]).sceneOrder = ["B", "A"] ∧
    (reorderScenes docC2 ["B", "A"]).scenes =
      (["B", "A"].filterMap (fun k => (lookupScene docC2.scenes k).map (fun s => (k, s)))) ∧
    (List.Perm ["B", "A"] (sceneKeys docC2) → (sceneKeys docC2).Nodup →
      sceneKeys (reorderScenes docC2 ["B", "A"]) = ["B", "A"] ∧
      (reorderScenes docC2 ["B", "A"]).scenes.Perm docC2.scenes) :=
  C2_reorderScenes_applies_unconditionally docC2 ["B", "A"] (by decide)

/-!
## Claim C9
-/

/-- A document containing a scene whose id has a space — importable, since
imported JSON keys are arbitrary, and creatable by `addNewScene`, which does
not validate the character set. -/
def docC9 : TourConfig :=
  { firstScene := "a b", sceneOrder := ["a b"], scenes := [("a b", mkScene "t/" 5 8192)] }

/-- **C9, counterexample.**  The claim is false as stated: `renameScene runs
the `[a-zA-Z0-9_-]` pattern check (line 1217) before the identity
short-circuit (line 1222), so the identity rename of the existing scene id
"a b" returns failure rather than success. -/
theorem C9_counterexample :
    "a b" ∈ sceneKeys docC9 ∧ renameScene docC9 "a b" "a b" = none := by decide

/-- **C9 (amended).**  For every document and every id x that is non-empty
and matches `[a-zA-Z0-9_-]+`, renaming x to the identical x succeeds and
leaves the entire document unchanged: the identity rename short-circuits
before the duplicate-id check and performs no hotspot, sceneOrder, or
firstScene updates. -/
theorem C9_identity_rename (t : TourConfig) (x : String)
    (hpat : validIdPattern x = true) : renameScene t x x = some t := by
  unfold renameScene
  have hne : x ≠ "" := by
    intro h
    rw [h] at hpat
    simp [validIdPattern] at hpat
  rw [if_neg hne, if_neg (by simp [hpat]), if_pos rfl]

theorem C9_identity_rename_witness : renameScene docC9 "scene_1" "scene_1" = some docC9 :=
  C9_identity_rename docC9 "scene_1" (by decide)

/-!
## Claim C10
-/

/-- A document whose single hotspot carries a pattern-invalid id (as an
imported document may). -/
def docC10 : TourConfig :=
  { firstScene := "A", sceneOrder := ["A", "B"],
    scenes := [("A", { mkScene "a/" 5 8192 with hotSpots :=
                 [{ pitch := 0, yaw := 0, text := "go", sceneId := "B", id := "bad id",
                    targetPitch := 0, targetYaw := 0, targetHfov := 100 }] }),
               ("B", mkScene "b/" 5 8192)] }

/-- **C10, counterexample.**  Re-submitting a hotspot's own current id
during an edit does not always pass validation: for the hotspot at index 0
of scene "A", whose stored id is "bad id", `validateHotspotId` rejects the
re-submitted id on the character-set check even though the slot itself is
excluded. -/
theorem C10_counterexample :
    (docC10.scenes.head?.map (fun ks => ks.2.hotSpots.head?.map (fun hs => hs.id))) =
      some (some "bad id") ∧
    validateHotspotId docC10 "bad id" "A" 0 = .invalidChars := by decide

theorem findDupScene_append_none {hid sceneId : String} {ex : Int}
    {pre rest : List (String × Scene)}
    (hpre : ∀ ks ∈ pre, findDupHotspot hid (ks.1 = sceneId) ex 0 ks.2.hotSpots = false) :
    findDupScene hid sceneId ex (pre ++ rest) = findDupScene hid sceneId ex rest := by
  induction pre with
  | nil => rfl
  | cons ks tl ih =>
    rw [List.cons_append, findDupScene, if_neg (by rw [hpre ks (by simp)]; simp)]
    exact ih (fun ks' h => hpre ks' (by simp [h]))

theorem findDupScene_cons_found {hid sceneId : String} {ex : Int} {k : String} {sc : Scene}
    {rest : List (String × Scene)}
    (h : findDupHotspot hid (k = sceneId) ex 0 sc.hotSpots = true) :
    findDupScene hid sceneId ex ((k, sc) :: rest) = some k := by
  simp [findDupScene, h]

/-- **C10 (amended).**  Validating a hotspot id while editing the hotspot
at index i of scene S excludes that slot from the duplicate check: provided
the stored id X matches `[a-zA-Z0-9_-]+` and no hotspot other than slot
(S, i) carries X (invariant 1 gives this), re-submitting X for slot (S, i)
passes validation, while X offered for any other slot (S', e') is rejected
as a duplicate found in scene S. -/
theorem C10_validate_excludes_self (t : TourConfig) (S : String) (i : Nat) (sc : Scene)
    (hS : lookupScene t.scenes S = some sc) (hi : i < sc.hotSpots.length)
    (hnd : (sceneKeys t).Nodup)
    (hpat : validIdPattern (sc.hotSpots.get ⟨i, hi⟩).id = true)
    (hunique : ∀ ks ∈ t.scenes, ∀ j, (hj : j < ks.2.hotSpots.length) →
      ¬(ks.1 = S ∧ j = i) → (ks.2.hotSpots.get ⟨j, hj⟩).id ≠ (sc.hotSpots.get ⟨i, hi⟩).id) :
    validateHotspotId t (sc.hotSpots.get ⟨i, hi⟩).id S (i : Int) = .valid ∧
    (∀ (S' : String) (e' : Int), ¬(S' = S ∧ e' = (i : Int)) →
      validateHotspotId t (sc.hotSpots.get ⟨i, hi⟩).id S' e' = .duplicate S) := by
  have hne : (sc.hotSpots.get ⟨i, hi⟩).id ≠ "" := by
    intro h
    rw [h] at hpat
    simp [validIdPattern] at hpat
  have hpat2 : validIdPattern (sc.hotSpots[i]).id = true := by simpa using hpat
  obtain ⟨pre, post, hdec, hpre, hpost⟩ := lookup_decomp_of_nodup hnd hS
  constructor
  · unfold validateHotspotId
    rw [if_neg hne, if_neg (by simp [hpat2])]
    have hnone : findDupScene (sc.hotSpots.get ⟨i, hi⟩).id S (i : Int) t.scenes = none := by
      rw [findDupScene_eq_none_iff]
      intro ks hks j hj hcond
      apply hunique ks hks j hj
      intro hc
      exact hcond ⟨hc.1, by simp [hc.2]⟩
    rw [hnone]
  · intro S' e' hcond
    unfold validateHotspotId
    rw [if_neg hne, if_neg (by simp [hpat2])]
    have hprenone : ∀ ks ∈ pre,
        findDupHotspot (sc.hotSpots.get ⟨i, hi⟩).id (ks.1 = S') e' 0 ks.2.hotSpots =
          false := by
      intro ks hks
      rw [findDupHotspot_eq_false_iff]
      intro j hj _
      apply hunique ks (by rw [hdec]; exact List.mem_append_left _ hks) j hj
      intro hc
      exact hpre (hc.1 ▸ List.mem_map.mpr ⟨ks, hks, rfl⟩)
    have hfound : findDupHotspot (sc.hotSpots.get ⟨i, hi⟩).id (S = S') e' 0
        sc.hotSpots = true := by
      by_contra hfalse
      rw [Bool.not_eq_true, findDupHotspot_eq_false_iff] at hfalse
      have hcnd : ¬(decide (S = S') = true ∧ ((0 + i : Nat) : Int) = e') := by
        intro hc
        apply hcond
        refine ⟨(of_decide_eq_true hc.1).symm, ?_⟩
        have h2 := hc.2
        simp only [Nat.zero_add] at h2
        exact h2.symm
      exact hfalse i hi hcnd rfl
    have hsome : findDupScene (sc.hotSpots.get ⟨i, hi⟩).id S' e' t.scenes = some S := by
      rw [hdec, findDupScene_append_none hprenone, findDupScene_cons_found hfound]
    rw [hsome]

/-- A valid hotspot used in C10's witness document. -/
def hsC10w : Hotspot :=
  { pitch := 1, yaw := 2, text := "go", sceneId := "B", id := "hs_B_001",
    targetPitch := 0, targetYaw := 0, targetHfov := 100 }

/-- C10's witness document: one well-formed hotspot in scene "A". -/
def scC10w : Scene := { mkScene "a/" 5 8192 with hotSpots := [hsC10w] }

def docC10w : TourConfig :=
  { firstScene := "A", sceneOrder := ["A", "B"],
    scenes := [("A", scC10w), ("B", mkScene "b/" 5 8192)] }

theorem C10_validate_excludes_self_witness :
    validateHotspotId docC10w "hs_B_001" "A" ((0 : Nat) : Int) = .valid ∧
    validateHotspotId docC10w "hs_B_001" "B" (-1) = .duplicate "A" := by
  have h := C10_validate_excludes_self docC10w "A" 0 scC10w (by decide) (by decide)
    (by decide) (by decide) (by decide)
  exact ⟨h.1, h.2 "B" (-1) (by decide)⟩

/-!
## Claim C7
-/

/-- Modelled from the spec (§4.1 Identifier Policy), for the refinement
comparison of C7: `validateId` "accepts only non-empty strings matching
`[A-Za-z0-9_-]+`".  The source's `addNewScene` performs no such check. -/
def specValidSceneId (s : String) : Bool :=
  !s.data.isEmpty && s.data.all isIdChar

/-- The empty document C7 starts from. -/
def docC7 : TourConfig := { firstScene := "", sceneOrder := [], scenes := [] }

/-- **C7, counterexample.**  "a b" is invalid under the spec's identifier
policy, yet `addNewScene` (lines 415-487) accepts it: the only checks are
non-emptiness of id and path and the taken-id test, so "addScene fails when
the id is invalid" is false on the code. -/
theorem C7_counterexample :
    specValidSceneId "a b" = false ∧
    addNewScene docC7 "a b" "tiles/x/" 5 8192 ≠ none := by decide

/-- **C7 (amended).**  `addNewScene` fails exactly when the id or the image
path is empty or the id is already taken (there is no character-set
validation; the document is unchanged on failure, which the `Option`
embedding makes structural).  On success it inserts a scene with an empty
hotspot list at the end of the map, appends the id to `sceneOrder`, and
sets `firstScene` to the new id exactly when the document had no scenes
before the add — so from the empty document, addScene("lobby", ...) yields
`firstScene = "lobby"` and `sceneOrder = ["lobby"]` (witness). -/
theorem C7_addScene (t : TourConfig) (id path : String) (ml cr : Int) :
    (addNewScene t id path ml cr = none ↔ (id = "" ∨ path = "" ∨ id ∈ sceneKeys t)) ∧
    (∀ t', addNewScene t id path ml cr = some t' →
      (∃ sc : Scene, sc.hotSpots = [] ∧ t'.scenes = t.scenes ++ [(id, sc)]) ∧
      t'.sceneOrder = t.sceneOrder ++ [id] ∧
      (t.scenes = [] → t'.firstScene = id) ∧
      (t.scenes ≠ [] → t'.firstScene = t.firstScene)) := by
  constructor
  · constructor
    · intro h
      unfold addNewScene at h
      split at h
      · rename_i hcond
        rcases Bool.or_eq_true_iff.mp hcond with hc | hc
        · exact Or.inl (of_decide_eq_true hc)
        · exact Or.inr (Or.inl (of_decide_eq_true hc))
      · split at h
        · rename_i htaken
          exact Or.inr (Or.inr (lookupScene_isSome_iff.mp htaken))
        · exact absurd h (by simp)
    · intro h
      unfold addNewScene
      by_cases h1 : (decide (id = "") || decide (path = "")) = true
      · rw [if_pos h1]
      · rcases h with h | h | h
        · exact absurd (by simp [h]) h1
        · exact absurd (by simp [h]) h1
        · rw [if_neg h1, if_pos (lookupScene_isSome_iff.mpr h)]
  · intro t' h
    unfold addNewScene at h
    split at h
    · exact absurd h (by simp)
    split at h
    · exact absurd h (by simp)
    injection h with h
    subst h
    refine ⟨⟨mkScene path ml cr, rfl, rfl⟩, rfl, ?_, ?_⟩
    · intro hE
      simp [hE]
    · intro hE
      have h2 : t.scenes.isEmpty = false := by
        cases hC : t.scenes with
        | nil => exact absurd hC hE
        | cons a l => rfl
      simp [h2]

theorem C7_addScene_witness :
    ∃ t', addNewScene docC7 "lobby" "tiles/lobby/" 5 8192 = some t' ∧
      t'.firstScene = "lobby" ∧ t'.sceneOrder = ["lobby"] := by
  have h := C7_addScene docC7 "lobby" "tiles/lobby/" 5 8192
  cases hA : addNewScene docC7 "lobby" "tiles/lobby/" 5 8192 with
  | none => exact absurd (h.1.mp hA) (by decide)
  | some t' =>
    obtain ⟨⟨sc, hsc, hscenes⟩, horder, hfirst, _⟩ := h.2 t' hA
    exact ⟨t', rfl, hfirst rfl, by rw [horder]; rfl⟩

/-!
## Claim C3
-/

/-- **C3.**  Deleting an existing scene X (with a non-empty id; the UI guard
`if (!currentScene) return` makes "" undeletable) from a document with
pairwise-distinct scene keys and a duplicate-free `sceneOrder` (JS object
structure and invariant 3 respectively): exactly the scene X disappears
from the map, every surviving scene keeps its data except that exactly the
hotspots whose `targetSceneId` is X are dropped (hotspots owned by X vanish
with X's map entry), X is spliced out of `sceneOrder`, and `firstScene`
becomes the first remaining scene id — in map order — or "" when no scene
remains, exactly when it pointed at X. -/
theorem C3_deleteScene_cascade (t : TourConfig) (x : String)
    (hmem : x ∈ sceneKeys t) (hxne : x ≠ "")
    (hnd : (sceneKeys t).Nodup) (hord : t.sceneOrder.Nodup) :
    ∃ t', deleteScene t x = some t' ∧
      (∀ k, k ∈ sceneKeys t' ↔ (k ∈ sceneKeys t ∧ k ≠ x)) ∧
      t'.sceneOrder = t.sceneOrder.erase x ∧ x ∉ t'.sceneOrder ∧
      (∀ k sc, k ≠ x → lookupScene t.scenes k = some sc →
        lookupScene t'.scenes k =
          some { sc with hotSpots := sc.hotSpots.filter (fun hs => hs.sceneId ≠ x) }) ∧
      (t.firstScene = x → t'.firstScene = (sceneKeys t').headD "") ∧
      (t.firstScene ≠ x → t'.firstScene = t.firstScene) := by
  refine ⟨deleteSceneCore t x, by unfold deleteScene; rw [if_neg hxne], ?_, rfl, ?_, ?_, ?_, ?_⟩
  · intro k
    show k ∈ List.map Prod.fst _ ↔ _
    unfold deleteSceneCore
    simp only
    rw [List.map_map]
    constructor
    · intro hk
      obtain ⟨ks, hks, hkk⟩ := List.mem_map.mp hk
      have hmem2 := List.mem_filter.mp hks
      subst hkk
      exact ⟨List.mem_map.mpr ⟨ks, hmem2.1, rfl⟩, by simpa using hmem2.2⟩
    · intro ⟨hk1, hk2⟩
      obtain ⟨ks, hks, hkk⟩ := List.mem_map.mp hk1
      subst hkk
      exact List.mem_map.mpr ⟨ks, List.mem_filter.mpr ⟨hks, by simpa using hk2⟩, rfl⟩
  · show x ∉ (deleteSceneCore t x).sceneOrder
    unfold deleteSceneCore
    simp only
    intro hx
    exact absurd ((List.Nodup.mem_erase_iff hord).mp hx).1 (by simp)
  · intro k sc hk hlook
    obtain ⟨pre, post, hdec, hpre, hpost⟩ := lookup_decomp_of_nodup hnd hlook
    unfold deleteSceneCore
    simp only
    rw [hdec, List.filter_append, List.filter_cons, if_pos (by simpa using hk),
      List.map_append, List.map_cons]
    apply lookupScene_decomp
    intro hmem2
    apply hpre
    obtain ⟨ks, hks, hkk⟩ := List.mem_map.mp hmem2
    obtain ⟨ks1, hks1, hkk1⟩ := List.mem_map.mp hks
    have := List.mem_filter.mp hks1
    subst hkk1
    exact List.mem_map.mpr ⟨ks1, this.1, hkk⟩
  · intro hF
    show (if t.firstScene = x then _ else t.firstScene) = _
    rw [if_pos hF]
    show _ = (((t.scenes.filter (fun ks => ks.1 ≠ x)).map _).map Prod.fst).headD ""
    rw [List.map_map]
    cases hC : t.scenes.filter (fun ks => ks.1 ≠ x) with
    | nil => rfl
    | cons ks tl => rfl
  · intro hF
    show (if t.firstScene = x then _ else t.firstScene) = _
    rw [if_neg hF]

/-- C3's witness: Scenario C.  Scenes A, B, C with hotspots A→B and C→B;
deleting B drops both hotspots, B's map and order entries, and moves
`firstScene` (which was B) to the first remaining scene. -/
def hsC3ab : Hotspot :=
  { pitch := 1, yaw := 2, text := "to B", sceneId := "B", id := "hs_B_001",
    targetPitch := 0, targetYaw := 0, targetHfov := 100 }

def hsC3cb : Hotspot :=
  { pitch := 3, yaw := 4, text := "to B too", sceneId := "B", id := "hs_B_002",
    targetPitch := 0, targetYaw := 0, targetHfov := 100 }

def docC3 : TourConfig :=
  { firstScene := "B", sceneOrder := ["A", "B", "C"],
    scenes := [("A", { mkScene "a/" 5 8192 with hotSpots := [hsC3ab] }),
               ("B", mkScene "b/" 5 8192),
               ("C", { mkScene "c/" 5 8192 with hotSpots := [hsC3cb] })] }

theorem C3_deleteScene_cascade_witness :
    ∃ t', deleteScene docC3 "B" = some t' ∧
      (∀ k, k ∈ sceneKeys t' ↔ (k ∈ sceneKeys docC3 ∧ k ≠ "B")) ∧
      t'.sceneOrder = docC3.sceneOrder.erase "B" ∧ "B" ∉ t'.sceneOrder ∧
      (∀ k sc, k ≠ "B" → lookupScene docC3.scenes k = some sc →
        lookupScene t'.scenes k =
          some { sc with hotSpots := sc.hotSpots.filter (fun hs => hs.sceneId ≠ "B") }) ∧
      (docC3.firstScene = "B" → t'.firstScene = (sceneKeys t').headD "") ∧
      (docC3.firstScene ≠ "B" → t'.firstScene = docC3.firstScene) :=
  C3_deleteScene_cascade docC3 "B" (by decide) (by decide) (by decide) (by decide)

/-!
## Claim C4
-/

theorem lookupScene_map_keyed {scenes : List (String × Scene)} (g : String → Scene → Scene)
    (k : String) :
    lookupScene (scenes.map (fun ks => (ks.1, g ks.1 ks.2))) k =
      (lookupScene scenes k).map (g k) := by
  induction scenes with
  | nil => rfl
  | cons ks rest ih =>
    by_cases hk : ks.1 = k
    · rw [List.map_cons,
        show ks :: rest = (ks.1, ks.2) :: rest from rfl]
      rw [hk, lookupScene_cons_self, lookupScene_cons_self]
      rfl
    · rw [List.map_cons,
        show ks :: rest = (ks.1, ks.2) :: rest from rfl,
        lookupScene_cons_ne hk, lookupScene_cons_ne hk]
      exact ih

theorem updateSceneAt_eq_keyed (scenes : List (String × Scene)) (k : String)
    (f : Scene → Scene) :
    updateSceneAt scenes k f =
      scenes.map (fun ks => (ks.1, if ks.1 = k then f ks.2 else ks.2)) := by
  unfold updateSceneAt
  apply List.map_congr_left
  intro ks _
  by_cases h : ks.1 = k <;> simp [h]

/-- The number of hotspots targeting `s`, as a single filtered count. -/
theorem countTargeting_eq_filter_length (scenes : List (String × Scene)) (s : String) :
    countTargeting scenes s =
      ((scenes.flatMap (fun ks => ks.2.hotSpots)).filter (fun hs => hs.sceneId = s)).length := by
  induction scenes with
  | nil => rfl
  | cons ks rest ih =>
    unfold countTargeting at ih ⊢
    rw [List.map_cons, List.sum_cons, List.flatMap_cons, List.filter_append,
      List.length_append, ih]

theorem countTargeting_congr {scenes1 scenes2 : List (String × Scene)} (s : String)
    (h : scenes1.map (fun ks => ks.2.hotSpots) = scenes2.map (fun ks => ks.2.hotSpots)) :
    countTargeting scenes1 s = countTargeting scenes2 s := by
  unfold countTargeting
  induction scenes1 generalizing scenes2 with
  | nil =>
    cases scenes2 with
    | nil => rfl
    | cons b l => exact absurd h (by simp)
  | cons a l1 ih =>
    cases scenes2 with
    | nil => exact absurd h (by simp)
    | cons b l2 =>
      rw [List.map_cons, List.map_cons] at h ⊢
      injection h with h1 h2
      rw [List.sum_cons, List.sum_cons, h1, ih h2]

/-- The per-scene effect of a capture on scene `s`: camera overwritten when
the key matches, every hotspot retargeted when it points at `s`. -/
def captureTransform (s : String) (p y hf : Int) (k : String) (sc : Scene) : Scene :=
  { (if k = s then { sc with pitch := p, yaw := y, hfov := hf } else sc) with
    hotSpots := sc.hotSpots.map (retargetHotspot s p y hf) }

/-- **C4.**  For a document with pairwise-distinct scene keys and an
existing, non-empty scene id S, `captureView(S, p, y, h)` succeeds and
yields a document in which scene S's camera is (p, y, h), every other
scene's camera is untouched, every hotspot anywhere keeps its label text,
anchor position, id and target scene, hotspots whose `targetSceneId` is S —
and exactly those — have their target camera overwritten with (p, y, h),
and the returned count is the exact number of hotspots in the whole
document targeting S.  `sceneOrder` and `firstScene` are untouched. -/
theorem C4_captureView (t : TourConfig) (s : String) (p y hf : Int) (sc0 : Scene)
    (hsne : s ≠ "") (hnd : (sceneKeys t).Nodup)
    (hmem : lookupScene t.scenes s = some sc0) :
    ∃ t' n, updateSceneWithCapturedView t s p y hf = some (t', n) ∧
      t'.sceneOrder = t.sceneOrder ∧ t'.firstScene = t.firstScene ∧
      sceneKeys t' = sceneKeys t ∧
      n = ((t.scenes.flatMap (fun ks => ks.2.hotSpots)).filter
        (fun hs => hs.sceneId = s)).length ∧
      (∀ k sc, lookupScene t.scenes k = some sc →
        ∃ sc', lookupScene t'.scenes k = some sc' ∧
          (k = s → sc'.pitch = p ∧ sc'.yaw = y ∧ sc'.hfov = hf) ∧
          (k ≠ s → sc'.pitch = sc.pitch ∧ sc'.yaw = sc.yaw ∧ sc'.hfov = sc.hfov) ∧
          sc'.hotSpots.length = sc.hotSpots.length ∧
          (∀ j, (hj : j < sc.hotSpots.length) → (hj' : j < sc'.hotSpots.length) →
            (sc'.hotSpots.get ⟨j, hj'⟩).text = (sc.hotSpots.get ⟨j, hj⟩).text ∧
            (sc'.hotSpots.get ⟨j, hj'⟩).pitch = (sc.hotSpots.get ⟨j, hj⟩).pitch ∧
            (sc'.hotSpots.get ⟨j, hj'⟩).yaw = (sc.hotSpots.get ⟨j, hj⟩).yaw ∧
            (sc'.hotSpots.get ⟨j, hj'⟩).id = (sc.hotSpots.get ⟨j, hj⟩).id ∧
            (sc'.hotSpots.get ⟨j, hj'⟩).sceneId = (sc.hotSpots.get ⟨j, hj⟩).sceneId ∧
            ((sc.hotSpots.get ⟨j, hj⟩).sceneId = s →
              (sc'.hotSpots.get ⟨j, hj'⟩).targetPitch = p ∧
              (sc'.hotSpots.get ⟨j, hj'⟩).targetYaw = y ∧
              (sc'.hotSpots.get ⟨j, hj'⟩).targetHfov = hf) ∧
            ((sc.hotSpots.get ⟨j, hj⟩).sceneId ≠ s →
              (sc'.hotSpots.get ⟨j, hj'⟩).targetPitch = (sc.hotSpots.get ⟨j, hj⟩).targetPitch ∧
              (sc'.hotSpots.get ⟨j, hj'⟩).targetYaw = (sc.hotSpots.get ⟨j, hj⟩).targetYaw ∧
              (sc'.hotSpots.get ⟨j, hj'⟩).targetHfov =
                (sc.hotSpots.get ⟨j, hj⟩).targetHfov))) := by
  have hsucc : updateSceneWithCapturedView t s p y hf =
      some ({ t with scenes := updateHotspotReferences (updateSceneAt t.scenes s
                (fun sc => { sc with pitch := p, yaw := y, hfov := hf })) s p y hf },
            countTargeting (updateSceneAt t.scenes s
              (fun sc => { sc with pitch := p, yaw := y, hfov := hf })) s) := by
    unfold updateSceneWithCapturedView
    rw [if_neg hsne, hmem]
  refine ⟨_, _, hsucc, rfl, rfl, ?_, ?_, ?_⟩
  · show (updateHotspotReferences _ s p y hf).map Prod.fst = _
    rw [updateHotspotReferences_keys]
    exact updateSceneAt_keys t.scenes s _
  · show countTargeting _ s = _
    rw [← countTargeting_eq_filter_length]
    apply countTargeting_congr
    rw [updateSceneAt_eq_keyed, List.map_map]
    apply List.map_congr_left
    intro ks _
    by_cases hk : ks.1 = s <;> simp [hk]
  · intro k sc hlook
    have hcomp : (updateHotspotReferences (updateSceneAt t.scenes s
        (fun sc => { sc with pitch := p, yaw := y, hfov := hf })) s p y hf) =
        t.scenes.map (fun ks => (ks.1, captureTransform s p y hf ks.1 ks.2)) := by
      rw [updateSceneAt_eq_keyed]
      unfold updateHotspotReferences captureTransform
      rw [List.map_map]
      apply List.map_congr_left
      intro ks _
      by_cases hk : ks.1 = s <;> simp [hk]
    show ∃ sc', lookupScene (updateHotspotReferences _ s p y hf) k = some sc' ∧ _
    rw [hcomp, lookupScene_map_keyed (captureTransform s p y hf) k, hlook]
    have hhs : (captureTransform s p y hf k sc).hotSpots =
        sc.hotSpots.map (retargetHotspot s p y hf) := rfl
    refine ⟨captureTransform s p y hf k sc, rfl, ?_, ?_, by rw [hhs]; simp, ?_⟩
    · intro hk
      unfold captureTransform
      rw [if_pos hk]
      exact ⟨rfl, rfl, rfl⟩
    · intro hk
      unfold captureTransform
      rw [if_neg hk]
      exact ⟨rfl, rfl, rfl⟩
    · intro j hj hj'
      have hget : (captureTransform s p y hf k sc).hotSpots.get ⟨j, hj'⟩ =
          retargetHotspot s p y hf (sc.hotSpots.get ⟨j, hj⟩) := by
        simp only [hhs, List.get_eq_getElem, List.getElem_map]
      rw [hget]
      unfold retargetHotspot
      by_cases hsc : (sc.hotSpots.get ⟨j, hj⟩).sceneId = s
      · rw [if_pos (by simpa using hsc)]
        exact ⟨rfl, rfl, rfl, rfl, rfl, fun _ => ⟨rfl, rfl, rfl⟩,
          fun hcon => absurd hsc hcon⟩
      · rw [if_neg (by simpa using hsc)]
        exact ⟨rfl, rfl, rfl, rfl, rfl, fun hcon => absurd hcon hsc,
          fun _ => ⟨rfl, rfl, rfl⟩⟩

/-- C4's witness document: a hotspot in "A" targeting "B". -/
def hsC4 : Hotspot :=
  { pitch := 1, yaw := 2, text := "to B", sceneId := "B", id := "hs_B_001",
    targetPitch := 0, targetYaw := 0, targetHfov := 100 }

def docC4 : TourConfig :=
  { firstScene := "A", sceneOrder := ["A", "B"],
    scenes := [("A", { mkScene "tiles/a/" 5 8192 with hotSpots := [hsC4] }),
               ("B", mkScene "tiles/b/" 5 8192)] }

theorem C4_captureView_witness :
    ∃ t' n, updateSceneWithCapturedView docC4 "B" 10 20 30 = some (t', n) ∧ n = 1 := by
  obtain ⟨t', n, hsucc, _, _, _, hn, _⟩ :=
    C4_captureView docC4 "B" 10 20 30 (mkScene "tiles/b/" 5 8192)
      (by decide) (by decide) (by decide)
  exact ⟨t', n, hsucc, by rw [hn]; decide⟩

/-!
## Claim C5
-/

/-- Looking up a scene through the key-substituting map of a rename: the
entry for `k` is found under the substituted key, with its hotspots
repointed. -/
theorem lookupScene_map_rename {t : TourConfig} {old new k : String} {sc : Scene}
    (hnd : (sceneKeys t).Nodup) (hnew : new ∉ sceneKeys t)
    (hk : lookupScene t.scenes k = some sc) :
    lookupScene (t.scenes.map (fun ks => ((if ks.1 = old then new else ks.1),
      { ks.2 with hotSpots := ks.2.hotSpots.map (repointHotspot old new) })))
      (if k = old then new else k) =
      some { sc with hotSpots := sc.hotSpots.map (repointHotspot old new) } := by
  obtain ⟨pre, post, hdec, hpre, hpost⟩ := lookup_decomp_of_nodup hnd hk
  have hkmem : k ∈ sceneKeys t := lookupScene_isSome_iff.mp (by rw [hk]; rfl)
  rw [hdec, List.map_append, List.map_cons]
  have hnotpre : (if k = old then new else k) ∉
      (pre.map (fun ks => ((if ks.1 = old then new else ks.1),
        { ks.2 with hotSpots := ks.2.hotSpots.map (repointHotspot old new) }))).map
        Prod.fst := by
    intro hmem2
    rw [List.map_map] at hmem2
    obtain ⟨ks1, hks1, hkk⟩ := List.mem_map.mp hmem2
    have hks1mem : ks1.1 ∈ sceneKeys t := by
      show ks1.1 ∈ t.scenes.map Prod.fst
      rw [hdec, List.map_append, List.map_cons]
      exact List.mem_append_left _ (List.mem_map.mpr ⟨ks1, hks1, rfl⟩)
    have hkk2 : (if ks1.1 = old then new else ks1.1) = (if k = old then new else k) := hkk
    have hk1k : ks1.1 = k := by
      by_cases h1 : ks1.1 = old <;> by_cases h2 : k = old
      · rw [h1, h2]
      · rw [if_pos h1, if_neg h2] at hkk2
        exact absurd (hkk2 ▸ hkmem) hnew
      · rw [if_neg h1, if_pos h2] at hkk2
        exact absurd (hkk2 ▸ hks1mem) hnew
      · rwa [if_neg h1, if_neg h2] at hkk2
    exact hpre (hk1k ▸ List.mem_map.mpr ⟨ks1, hks1, rfl⟩)
  rw [lookupScene_append_of_not_mem hnotpre]
  exact lookupScene_cons_self

/-- **C5.**  Renaming an existing scene `old` to a fresh, pattern-valid
`new` in a document with pairwise-distinct scene keys and duplicate-free
`sceneOrder`: the rename succeeds; the scene map's key list has `old`
replaced by `new` in place (positions preserved); `sceneOrder` likewise;
`firstScene` is updated exactly when it equalled `old`; and every scene's
content survives under its (possibly substituted) key with every hotspot's
label text, anchor, id and target camera untouched and only
`targetSceneId = old` repointed to `new`. -/
theorem C5_renameScene (t : TourConfig) (old new : String)
    (hold : old ∈ sceneKeys t) (hnew : new ∉ sceneKeys t) (hne : old ≠ new)
    (hpat : validIdPattern new = true)
    (hnd : (sceneKeys t).Nodup) (hord : t.sceneOrder.Nodup) :
    ∃ t', renameScene t old new = some t' ∧
      sceneKeys t' = (sceneKeys t).map (fun k => if k = old then new else k) ∧
      t'.sceneOrder = t.sceneOrder.map (fun k => if k = old then new else k) ∧
      t'.firstScene = (if t.firstScene = old then new else t.firstScene) ∧
      (∀ k sc, lookupScene t.scenes k = some sc →
        ∃ sc', lookupScene t'.scenes (if k = old then new else k) = some sc' ∧
          sc'.pitch = sc.pitch ∧ sc'.yaw = sc.yaw ∧ sc'.hfov = sc.hfov ∧
          sc'.hotSpots.length = sc.hotSpots.length ∧
          (∀ j, (hj : j < sc.hotSpots.length) → (hj' : j < sc'.hotSpots.length) →
            (sc'.hotSpots.get ⟨j, hj'⟩).text = (sc.hotSpots.get ⟨j, hj⟩).text ∧
            (sc'.hotSpots.get ⟨j, hj'⟩).pitch = (sc.hotSpots.get ⟨j, hj⟩).pitch ∧
            (sc'.hotSpots.get ⟨j, hj'⟩).yaw = (sc.hotSpots.get ⟨j, hj⟩).yaw ∧
            (sc'.hotSpots.get ⟨j, hj'⟩).id = (sc.hotSpots.get ⟨j, hj⟩).id ∧
            (sc'.hotSpots.get ⟨j, hj'⟩).targetPitch = (sc.hotSpots.get ⟨j, hj⟩).targetPitch ∧
            (sc'.hotSpots.get ⟨j, hj'⟩).targetYaw = (sc.hotSpots.get ⟨j, hj⟩).targetYaw ∧
            (sc'.hotSpots.get ⟨j, hj'⟩).targetHfov = (sc.hotSpots.get ⟨j, hj⟩).targetHfov ∧
            (sc'.hotSpots.get ⟨j, hj'⟩).sceneId =
              (if (sc.hotSpots.get ⟨j, hj⟩).sceneId = old then new
               else (sc.hotSpots.get ⟨j, hj⟩).sceneId))) := by
  have hnewne : new ≠ "" := by
    intro h
    rw [h] at hpat
    simp [validIdPattern] at hpat
  have hlooknew : lookupScene t.scenes new = none := lookupScene_eq_none_iff.mpr hnew
  have hsucc : renameScene t old new =
      some { firstScene := (if t.firstScene = old then new else t.firstScene),
             sceneOrder := replaceFirst old new t.sceneOrder,
             scenes := t.scenes.map (fun ks =>
               ((if ks.1 = old then new else ks.1),
                { ks.2 with hotSpots := ks.2.hotSpots.map (repointHotspot old new) })) } := by
    unfold renameScene
    rw [if_neg hnewne, if_neg (by simp [hpat]), if_neg hne,
      if_neg (by rw [hlooknew]; simp)]
  refine ⟨_, hsucc, ?_, ?_, rfl, ?_⟩
  · show (List.map Prod.fst _) = _
    rw [List.map_map]
    show t.scenes.map _ = (t.scenes.map Prod.fst).map _
    rw [List.map_map]
    rfl
  · exact replaceFirst_eq_map_of_nodup hord
  · intro k sc hlook
    refine ⟨{ sc with hotSpots := sc.hotSpots.map (repointHotspot old new) },
      lookupScene_map_rename hnd hnew hlook, rfl, rfl, rfl, by simp, ?_⟩
    intro j hj hj'
    have hget : ({ sc with hotSpots := sc.hotSpots.map (repointHotspot old new) } :
        Scene).hotSpots.get ⟨j, hj'⟩ = repointHotspot old new (sc.hotSpots.get ⟨j, hj⟩) := by
      simp only [List.get_eq_getElem, List.getElem_map]
    rw [hget]
    unfold repointHotspot
    by_cases hsc : (sc.hotSpots.get ⟨j, hj⟩).sceneId = old
    · rw [if_pos (by simpa using hsc), if_pos hsc]
      exact ⟨rfl, rfl, rfl, rfl, rfl, rfl, rfl, rfl⟩
    · rw [if_neg (by simpa using hsc), if_neg hsc]
      exact ⟨rfl, rfl, rfl, rfl, rfl, rfl, rfl, rfl⟩

/-- C5's witness: Scenario D.  A hotspot in "B" has `targetSceneId = "A"`,
`label = "Go to A"`; renaming "A" to "Alpha" repoints the reference and
leaves the label unchanged. -/
def hsC5 : Hotspot :=
  { pitch := 1, yaw := 2, text := "Go to A", sceneId := "A", id := "hs_A_001",
    targetPitch := 0, targetYaw := 0, targetHfov := 100 }

def scC5b : Scene := { mkScene "tiles/b/" 5 8192 with hotSpots := [hsC5] }

def docC5 : TourConfig :=
  { firstScene := "A", sceneOrder := ["A", "B"],
    scenes := [("A", mkScene "tiles/a/" 5 8192), ("B", scC5b)] }

theorem C5_renameScene_witness :
    ∃ t', renameScene docC5 "A" "Alpha" = some t' ∧
      ∃ sc', lookupScene t'.scenes "B" = some sc' ∧
        ∃ (h : 0 < sc'.hotSpots.length),
          (sc'.hotSpots.get ⟨0, h⟩).sceneId = "Alpha" ∧
          (sc'.hotSpots.get ⟨0, h⟩).text = "Go to A" := by
  obtain ⟨t', hsucc, _, _, _, hlook⟩ :=
    C5_renameScene docC5 "A" "Alpha" (by decide) (by decide) (by decide) (by decide)
      (by decide) (by decide)
  obtain ⟨sc', hsc', _, _, _, hlen, hfields⟩ := hlook "B" scC5b (by decide)
  have h0 : (0 : Nat) < scC5b.hotSpots.length := by decide
  have h0' : (0 : Nat) < sc'.hotSpots.length := by rw [hlen]; decide
  obtain ⟨htext, _, _, _, _, _, _, hsceneId⟩ := hfields 0 h0 h0'
  have hspot : scC5b.hotSpots.get ⟨0, h0⟩ = hsC5 := rfl
  refine ⟨t', hsucc, sc', by simpa using hsc', h0', ?_, ?_⟩
  · rw [hsceneId]
    simp only [hspot]
    rfl
  · rw [htext]
    simp only [hspot]
    rfl

/-!
## Decimal digits: evaluation, roundtrip and injectivity

Facts about the decimal rendering used by the two id generators, needed
for claims C6 and C8.
-/

theorem natDigitsAux_congr : ∀ (f1 f2 n : Nat), n < f1 → n < f2 →
    natDigitsAux f1 n = natDigitsAux f2 n := by
  intro f1
  induction f1 with
  | zero => intro f2 n h1 _; omega
  | succ f1 ih =>
    intro f2 n h1 h2
    cases f2 with
    | zero => omega
    | succ f2 =>
      simp only [natDigitsAux]
      by_cases h10 : n < 10
      · rw [if_pos h10, if_pos h10]
      · rw [if_neg h10, if_neg h10]
        have hdiv : n / 10 < n := Nat.div_lt_self (by omega) (by omega)
        rw [ih f2 (n / 10) (by omega) (by omega)]

theorem natDigits_unfold (n : Nat) :
    natDigits n =
      if n < 10 then [digitChar n]
      else natDigits (n / 10) ++ [digitChar (n % 10)] := by
  rw [natDigits]
  simp only [natDigitsAux]
  by_cases h10 : n < 10
  · rw [if_pos h10, if_pos h10]
  · rw [if_neg h10, if_neg h10, natDigits]
    have hdiv : n / 10 < n := Nat.div_lt_self (by omega) (by omega)
    rw [natDigitsAux_congr n (n / 10 + 1) (n / 10) hdiv (by omega)]

theorem digitChar_toNat {d : Nat} (h : d < 10) : (digitChar d).toNat = 48 + d := by
  interval_cases d <;> decide

theorem digitChar_ne_underscore {d : Nat} (h : d < 10) : digitChar d ≠ '_' := by
  interval_cases d <;> decide

theorem natDigits_ne_nil (n : Nat) : natDigits n ≠ [] := by
  rw [natDigits_unfold]
  by_cases h10 : n < 10
  · rw [if_pos h10]; simp
  · rw [if_neg h10]; simp

theorem natDigits_mem_digit (n : Nat) : ∀ c ∈ natDigits n, ∃ d, d < 10 ∧ c = digitChar d := by
  induction n using Nat.strong_induction_on with
  | _ n ih =>
    rw [natDigits_unfold]
    by_cases h10 : n < 10
    · rw [if_pos h10]
      intro c hc
      simp only [List.mem_singleton] at hc
      exact ⟨n, h10, hc⟩
    · rw [if_neg h10]
      intro c hc
      rcases List.mem_append.mp hc with hc | hc
      · exact ih (n / 10) (Nat.div_lt_self (by omega) (by omega)) c hc
      · simp only [List.mem_singleton] at hc
        exact ⟨n % 10, Nat.mod_lt _ (by omega), hc⟩

theorem jsDigitsValue_append_singleton (a : List Char) (c : Char) :
    jsDigitsValue (a ++ [c]) = 10 * jsDigitsValue a + (c.toNat - 48) := by
  rw [jsDigitsValue, jsDigitsValue, List.foldl_append]
  rfl

theorem jsDigitsValue_natDigits (n : Nat) : jsDigitsValue (natDigits n) = n := by
  induction n using Nat.strong_induction_on with
  | _ n ih =>
    rw [natDigits_unfold]
    by_cases h10 : n < 10
    · rw [if_pos h10]
      simp only [jsDigitsValue, List.foldl_cons, List.foldl_nil]
      rw [digitChar_toNat h10]
      omega
    · rw [if_neg h10, jsDigitsValue_append_singleton,
        ih (n / 10) (Nat.div_lt_self (by omega) (by omega)),
        digitChar_toNat (Nat.mod_lt _ (by omega))]
      omega

theorem jsDigitsValue_zero_pad (k : Nat) (l : List Char) :
    jsDigitsValue (List.replicate k '0' ++ l) = jsDigitsValue l := by
  induction k with
  | zero => rfl
  | succ k ih =>
    rw [List.replicate_succ, List.cons_append]
    have h0 : (10 * 0 + ('0'.toNat - 48)) = 0 := by decide
    simp only [jsDigitsValue, List.foldl_cons, h0] at ih ⊢
    exact ih

theorem jsDigitsValue_pad3 (n : Nat) : jsDigitsValue (pad3 n) = n := by
  rw [pad3, jsDigitsValue_zero_pad, jsDigitsValue_natDigits]

theorem pad3_inj {m n : Nat} (h : pad3 m = pad3 n) : m = n := by
  have h2 := congrArg jsDigitsValue h
  rwa [jsDigitsValue_pad3, jsDigitsValue_pad3] at h2

theorem candidateId_inj {target : String} {m n : Nat}
    (h : candidateId target m = candidateId target n) : m = n := by
  apply pad3_inj
  have hd := congrArg String.data h
  simp only [candidateId, String.data_append, List.append_assoc] at hd
  exact List.append_cancel_left (List.append_cancel_left (List.append_cancel_left hd))

theorem isHotspotIdInUse_iff {t : TourConfig} {hid : String} :
    isHotspotIdInUse t hid = true ↔ hid ∈ hotspotIds t := by
  rw [isHotspotIdInUse, hotspotIds, scenesIds]
  simp only [List.any_eq_true, decide_eq_true_eq, List.mem_flatMap, List.mem_map]

/-- Pigeonhole for the generator loop: among the first
`length (hotspotIds t) + 1` candidates, at least one id is unused, because
the candidates are pairwise distinct. -/
theorem exists_unused_candidate (t : TourConfig) (target : String) :
    ∃ k, k < (hotspotIds t).length + 1 ∧
      isHotspotIdInUse t (candidateId target (1 + k)) = false := by
  by_contra hcon
  push_neg at hcon
  have hall : ∀ k < (hotspotIds t).length + 1,
      candidateId target (1 + k) ∈ hotspotIds t := by
    intro k hk
    have hne := hcon k hk
    have hb : isHotspotIdInUse t (candidateId target (1 + k)) = true := by
      cases hIU : isHotspotIdInUse t (candidateId target (1 + k)) with
      | false => exact absurd hIU hne
      | true => rfl
    exact isHotspotIdInUse_iff.mp hb
  have hinj : Function.Injective (fun k : Nat => candidateId target (1 + k)) := by
    intro a b hab
    have := candidateId_inj hab
    omega
  have hnd : ((List.range ((hotspotIds t).length + 1)).map
      fun k => candidateId target (1 + k)).Nodup :=
    List.Nodup.map hinj (List.nodup_range _)
  have hsub : ((List.range ((hotspotIds t).length + 1)).map
      fun k => candidateId target (1 + k)) ⊆ hotspotIds t := by
    intro x hx
    obtain ⟨k, hk, rfl⟩ := List.mem_map.mp hx
    exact hall k (List.mem_range.mp hk)
  have hle := (List.subperm_of_subset hnd hsub).length_le
  simp only [List.length_map, List.length_range] at hle
  omega

/-- Specification of the generator loop: with enough fuel, it returns the
first unused candidate counting up from `counter`. -/
theorem genHotspotIdAux_spec (t : TourConfig) (target : String) :
    ∀ (fuel counter : Nat),
      (∃ k, k < fuel ∧ isHotspotIdInUse t (candidateId target (counter + k)) = false) →
      ∃ n, genHotspotIdAux t target counter fuel = candidateId target n ∧
        counter ≤ n ∧ isHotspotIdInUse t (candidateId target n) = false ∧
        ∀ m, counter ≤ m → m < n → isHotspotIdInUse t (candidateId target m) = true := by
  intro fuel
  induction fuel with
  | zero =>
    rintro counter ⟨k, hk, -⟩
    omega
  | succ fuel ih =>
    rintro counter ⟨k, hk, hfree⟩
    by_cases huse : isHotspotIdInUse t (candidateId target counter) = true
    · have hk0 : k ≠ 0 := by
        rintro rfl
        rw [Nat.add_zero] at hfree
        rw [hfree] at huse
        exact Bool.noConfusion huse
      obtain ⟨n, hgen, hle, hfree2, hall⟩ :=
        ih (counter + 1)
          ⟨k - 1, by omega, by
            rw [show counter + 1 + (k - 1) = counter + k by omega]
            exact hfree⟩
      refine ⟨n, ?_, by omega, hfree2, ?_⟩
      · simp only [genHotspotIdAux]
        rw [if_pos huse]
        exact hgen
      · intro m h1 h2
        rcases Nat.eq_or_lt_of_le h1 with rfl | h1'
        · exact huse
        · exact hall m h1' h2
    · have huse' : isHotspotIdInUse t (candidateId target counter) = false := by
        cases hIU : isHotspotIdInUse t (candidateId target counter) with
        | false => rfl
        | true => exact absurd hIU huse
      refine ⟨counter, ?_, le_refl _, huse',
        fun m h1 h2 => absurd (Nat.lt_of_le_of_lt h1 h2) (lt_irrefl _)⟩
      simp only [genHotspotIdAux]
      rw [if_neg huse]

/-- `generateSceneBasedHotspotId` returns the first unused candidate
`hs_<target>_<NNN>` counting up from 1. -/
theorem generateSceneBasedHotspotId_least (t : TourConfig) (target : String) :
    ∃ n, generateSceneBasedHotspotId t target = candidateId target n ∧ 1 ≤ n ∧
      isHotspotIdInUse t (candidateId target n) = false ∧
      ∀ m, 1 ≤ m → m < n → isHotspotIdInUse t (candidateId target m) = true := by
  obtain ⟨k, hk, hfree⟩ := exists_unused_candidate t target
  exact genHotspotIdAux_spec t target ((hotspotIds t).length + 1) 1 ⟨k, hk, hfree⟩


/-!
## Claim C6
-/

/-- A valid document with two empty scenes "A" and "B". -/
def docC6 : TourConfig :=
  { firstScene := "A", sceneOrder := ["A", "B"],
    scenes := [("A", mkScene "tiles/a/" 5 8192), ("B", mkScene "tiles/b/" 5 8192)] }

/-- **C6, counterexample.**  The claim as stated is false:
`generateSceneBasedHotspotId` does produce the lowest unused zero-padded
`hs_<target>_<NNN>` — here `hs_B_001` — but the blank-id path of
`confirmAddHotspot` never calls it.  It uses the raw global counter on the
*owner* scene id (`` `hs_${currentScene}_${hotspotCounter++}` ``, line
1139): on `docC6` with counter 0, `addHotspot(owner="A", target="B",
id="")` stores the id `hs_A_0`, not `hs_B_001`. -/
theorem C6_counterexample :
    generateSceneBasedHotspotId docC6 "B" = "hs_B_001" ∧
    (confirmAddHotspot docC6 0 "A" "" "" "B" 1 2 none).map
        (fun r => (hotspotIds r.1, r.2)) = some (["hs_A_0"], 1) ∧
    "hs_A_0" ≠ "hs_B_001" := by decide

/-- **C6 (amended).**  Two distinct generators exist.  (1)
`generateSceneBasedHotspotId(target)` produces the lowest-numbered unused
identifier of the form `hs_<target>_<NNN>` (zero-padded counter starting
at 001, skipping numbers in use anywhere in the document).  (2) Adding a
hotspot through the dialog with an empty explicit id does *not* use it:
`confirmAddHotspot` falls back to `` `hs_${currentScene}_${hotspotCounter++}` ``
— the *owner* scene id with the raw un-padded global counter, which is
then incremented. -/
theorem C6_hotspot_id_generation :
    (∀ (t : TourConfig) (target : String),
      ∃ n, generateSceneBasedHotspotId t target = candidateId target n ∧ 1 ≤ n ∧
        isHotspotIdInUse t (candidateId target n) = false ∧
        ∀ m, 1 ≤ m → m < n → isHotspotIdInUse t (candidateId target m) = true) ∧
    (∀ (t : TourConfig) (c : Nat) (currentScene text target : String) (hp hy : Int)
        (sc : Scene),
      (sceneKeys t).Nodup → currentScene ≠ "" →
      lookupScene t.scenes currentScene = some sc → target ≠ "" →
      ∃ t', confirmAddHotspot t c currentScene text "" target hp hy none =
          some (t', c + 1) ∧
        ∃ sc', lookupScene t'.scenes currentScene = some sc' ∧
          sc'.hotSpots.map (fun hs => hs.id) =
            sc.hotSpots.map (fun hs => hs.id) ++
              ["hs_" ++ currentScene ++ "_" ++ natToString c]) := by
  constructor
  · intro t target
    exact generateSceneBasedHotspotId_least t target
  · intro t c currentScene text target hp hy sc hnd hcs hlook htarget
    have hval : validateHotspotId t "" currentScene (-1) = HotspotIdValidation.valid := rfl
    refine ⟨{ t with scenes := updateSceneAt t.scenes currentScene (fun s => { s with hotSpots := s.hotSpots ++ [mkHotspotData t (if text = "" then target else text) ("hs_" ++ currentScene ++ "_" ++ natToString c) target hp hy] }) }, ?_, ?_⟩
    · simp only [confirmAddHotspot, if_neg hcs, hlook, if_neg htarget, hval]
      rw [if_neg (show ¬ (HotspotIdValidation.valid ≠ HotspotIdValidation.valid) from
        fun hne => hne rfl)]
      rfl
    · obtain ⟨pre, post, hdec, hpre, hpost⟩ := lookup_decomp_of_nodup hnd hlook
      rw [hdec, updateSceneAt_decomp _ hpre hpost]
      refine ⟨_, lookupScene_decomp hpre, ?_⟩
      simp only [List.map_append, List.map_cons, List.map_nil, mkHotspotData_id]

/-- **C6, witness.**  On `docC6`: the generator yields an unused
`hs_B_<NNN>` skipping used numbers, and the blank-id dialog add on owner
"A" with counter 0 stores `hs_A_0` and advances the counter to 1. -/
theorem C6_hotspot_id_generation_witness :
    (∃ n, generateSceneBasedHotspotId docC6 "B" = candidateId "B" n ∧ 1 ≤ n ∧
      isHotspotIdInUse docC6 (candidateId "B" n) = false ∧
      ∀ m, 1 ≤ m → m < n → isHotspotIdInUse docC6 (candidateId "B" m) = true) ∧
    (∃ t', confirmAddHotspot docC6 0 "A" "" "" "B" 0 0 none = some (t', 1) ∧
      ∃ sc', lookupScene t'.scenes "A" = some sc' ∧
        sc'.hotSpots.map (fun hs => hs.id) = ["hs_A_0"]) := by
  constructor
  · exact C6_hotspot_id_generation.1 docC6 "B"
  · obtain ⟨t', h1, sc', h2, h3⟩ :=
      C6_hotspot_id_generation.2 docC6 0 "A" "" "B" 0 0 (mkScene "tiles/a/" 5 8192)
        (by decide) (by decide) rfl (by decide)
    refine ⟨t', h1, sc', h2, ?_⟩
    rw [h3]
    rfl

/-!
## Splitting on underscores and numeric suffixes
-/

theorem splitOnUnderscore_ne_nil (l : List Char) : splitOnUnderscore l ≠ [] := by
  induction l with
  | nil => simp [splitOnUnderscore]
  | cons c rest ih =>
    cases h : splitOnUnderscore rest with
    | nil => exact absurd h ih
    | cons h0 ts =>
      simp only [splitOnUnderscore, h]
      by_cases hc : c = '_'
      · rw [if_pos hc]; simp
      · rw [if_neg hc]; simp

theorem splitOnUnderscore_no_underscore {l : List Char} (h : '_' ∉ l) :
    splitOnUnderscore l = [l] := by
  induction l with
  | nil => rfl
  | cons c rest ih =>
    have hc : c ≠ '_' := fun hc => h (by simp [hc])
    have hrest : '_' ∉ rest := fun hm => h (by simp [hm])
    simp only [splitOnUnderscore, ih hrest]
    rw [if_neg hc]

theorem splitOnUnderscore_length_ge_two {l : List Char} (h : '_' ∈ l) :
    2 ≤ (splitOnUnderscore l).length := by
  induction l with
  | nil => exact absurd h (List.not_mem_nil _)
  | cons c rest ih =>
    cases hS : splitOnUnderscore rest with
    | nil => exact absurd hS (splitOnUnderscore_ne_nil rest)
    | cons h0 ts =>
      simp only [splitOnUnderscore, hS]
      by_cases hc : c = '_'
      · rw [if_pos hc]
        simp
      · rw [if_neg hc]
        have hrest : '_' ∈ rest := by
          rcases List.mem_cons.mp h with hm | hm
          · exact absurd hm.symm hc
          · exact hm
        have h2 := ih hrest
        rw [hS] at h2
        simpa using h2

theorem getLastD_split_append : ∀ (a b : List Char), '_' ∉ b →
    (splitOnUnderscore (a ++ '_' :: b)).getLastD [] = b := by
  intro a
  induction a with
  | nil =>
    intro b hb
    have h1 : splitOnUnderscore ('_' :: b) = [[], b] := by
      simp [splitOnUnderscore, splitOnUnderscore_no_underscore hb]
    rw [List.nil_append, h1, List.getLastD_cons, List.getLastD_cons]
    rfl
  | cons c a2 ih =>
    intro b hb
    cases hS : splitOnUnderscore (a2 ++ '_' :: b) with
    | nil => exact absurd hS (splitOnUnderscore_ne_nil _)
    | cons h0 ts =>
      have hts : ts ≠ [] := by
        have h2 := splitOnUnderscore_length_ge_two
          (show '_' ∈ a2 ++ '_' :: b by simp)
        rw [hS] at h2
        intro hc
        rw [hc] at h2
        simp at h2
      have hred : splitOnUnderscore (c :: (a2 ++ '_' :: b)) =
          if c = '_' then [] :: h0 :: ts else (c :: h0) :: ts := by
        simp only [splitOnUnderscore, hS]
      have hlast := ih b hb
      rw [hS, List.getLastD_cons] at hlast
      rw [List.cons_append, hred]
      by_cases hc : c = '_'
      · rw [if_pos hc, List.getLastD_cons, List.getLastD_cons]
        exact hlast
      · rw [if_neg hc, List.getLastD_cons]
        cases ts with
        | nil => exact absurd rfl hts
        | cons t0 ts2 =>
          rw [List.getLastD_cons]
          rw [List.getLastD_cons] at hlast
          exact hlast

theorem splitOnUnderscore_hs_prefix (rest : List Char) :
    splitOnUnderscore ('h' :: 's' :: '_' :: rest) = ['h', 's'] :: splitOnUnderscore rest := by
  cases hS : splitOnUnderscore rest with
  | nil => exact absurd hS (splitOnUnderscore_ne_nil rest)
  | cons h0 ts => simp [splitOnUnderscore, hS]

theorem hs_id_data (s : String) (c : Nat) :
    ("hs_" ++ s ++ "_" ++ natToString c).data =
      'h' :: 's' :: '_' :: (s.data ++ '_' :: natDigits c) := by
  simp only [String.data_append, natToString]
  show ['h', 's', '_'] ++ s.data ++ ['_'] ++ natDigits c = _
  simp [List.append_assoc]

theorem startsWithHs_gen (s : String) (c : Nat) :
    startsWithHs ("hs_" ++ s ++ "_" ++ natToString c) = true := by
  rw [startsWithHs, hs_id_data]
  rfl

theorem natDigits_no_underscore (c : Nat) : '_' ∉ natDigits c := by
  intro hmem
  obtain ⟨d, hd, heq⟩ := natDigits_mem_digit c '_' hmem
  exact digitChar_ne_underscore hd heq.symm

theorem natDigits_all_digits (c : Nat) : ∀ x ∈ natDigits c, isDigitChar x = true := by
  intro x hx
  obtain ⟨d, hd, heq⟩ := natDigits_mem_digit c x hx
  subst heq
  simp only [isDigitChar, digitChar_toNat hd, Bool.and_eq_true, decide_eq_true_eq]
  omega

theorem jsParseInt_natDigits (c : Nat) : jsParseInt (natDigits c) = some c := by
  have hne := natDigits_ne_nil c
  simp only [jsParseInt, List.takeWhile_eq_self_iff.mpr (natDigits_all_digits c)]
  have hcond : ¬ ((natDigits c).isEmpty = true) := by
    cases hD : natDigits c with
    | nil => exact absurd hD hne
    | cons d ds => simp
  rw [if_neg hcond, jsDigitsValue_natDigits]

theorem suffixValue_gen (s : String) (c : Nat) :
    suffixValue ("hs_" ++ s ++ "_" ++ natToString c) = some c := by
  have hdata := hs_id_data s c
  have hsplit : splitOnUnderscore ("hs_" ++ s ++ "_" ++ natToString c).data =
      ['h', 's'] :: splitOnUnderscore (s.data ++ '_' :: natDigits c) := by
    rw [hdata, splitOnUnderscore_hs_prefix]
  have hlen : 3 ≤ (splitOnUnderscore ("hs_" ++ s ++ "_" ++ natToString c).data).length := by
    rw [hsplit, List.length_cons]
    have := splitOnUnderscore_length_ge_two
      (show '_' ∈ s.data ++ '_' :: natDigits c by simp)
    omega
  have hlast : (splitOnUnderscore ("hs_" ++ s ++ "_" ++ natToString c).data).getLastD [] =
      natDigits c := by
    have h2 := getLastD_split_append s.data (natDigits c) (natDigits_no_underscore c)
    rw [hsplit, List.getLastD_cons]
    cases hS : splitOnUnderscore (s.data ++ '_' :: natDigits c) with
    | nil => exact absurd hS (splitOnUnderscore_ne_nil _)
    | cons h0 ts =>
      rw [hS, List.getLastD_cons] at h2
      rw [List.getLastD_cons]
      exact h2
  have hcond : (startsWithHs ("hs_" ++ s ++ "_" ++ natToString c) &&
      3 ≤ (splitOnUnderscore ("hs_" ++ s ++ "_" ++ natToString c).data).length) = true := by
    rw [startsWithHs_gen]
    simp only [Bool.true_and, decide_eq_true_eq]
    exact hlen
  rw [suffixValue, if_pos hcond, hlast, jsParseInt_natDigits]

/-!
## The first pass of ensureHotspotIds: bounding the maximum suffix
-/

theorem foldl_suffix_le_hotspots (l : List Hotspot) :
    ∀ b : Nat, b ≤ l.foldl
      (fun a x => match suffixValue x.id with | some w => max a w | none => a) b := by
  induction l with
  | nil => intro b; exact le_refl b
  | cons hs rest ih =>
    intro b
    rw [List.foldl_cons]
    cases h : suffixValue hs.id with
    | none => simp only [h]; exact ih b
    | some w => simp only [h]; exact le_trans (le_max_left b w) (ih _)

theorem foldl_suffix_ge_hotspots {l : List Hotspot} {x : Hotspot} {v : Nat}
    (hmem : x ∈ l) (hv : suffixValue x.id = some v) :
    ∀ b : Nat, v ≤ l.foldl
      (fun a y => match suffixValue y.id with | some w => max a w | none => a) b := by
  induction l with
  | nil => exact absurd hmem (List.not_mem_nil _)
  | cons h0 rest ih =>
    intro b
    rw [List.foldl_cons]
    rcases List.mem_cons.mp hmem with rfl | hmem2
    · simp only [hv]
      exact le_trans (le_max_right b v) (foldl_suffix_le_hotspots rest _)
    · cases hs0 : suffixValue h0.id with
      | none => simp only [hs0]; exact ih hmem2 _
      | some w => simp only [hs0]; exact ih hmem2 _

theorem foldl_suffix_le_scenes (l : List (String × Scene)) :
    ∀ b : Nat, b ≤ l.foldl
      (fun acc ks => ks.2.hotSpots.foldl
        (fun a y => match suffixValue y.id with | some w => max a w | none => a) acc) b := by
  induction l with
  | nil => intro b; exact le_refl b
  | cons ks rest ih =>
    intro b
    rw [List.foldl_cons]
    exact le_trans (foldl_suffix_le_hotspots ks.2.hotSpots b) (ih _)

theorem foldl_suffix_ge_scenes {l : List (String × Scene)} {ks : String × Scene}
    {x : Hotspot} {v : Nat} (hks : ks ∈ l) (hx : x ∈ ks.2.hotSpots)
    (hv : suffixValue x.id = some v) :
    ∀ b : Nat, v ≤ l.foldl
      (fun acc k2 => k2.2.hotSpots.foldl
        (fun a y => match suffixValue y.id with | some w => max a w | none => a) acc) b := by
  induction l with
  | nil => exact absurd hks (List.not_mem_nil _)
  | cons k0 rest ih =>
    intro b
    rw [List.foldl_cons]
    rcases List.mem_cons.mp hks with rfl | hmem2
    · exact le_trans (foldl_suffix_ge_hotspots hx hv b) (foldl_suffix_le_scenes rest _)
    · exact ih hmem2 _

theorem maxSuffix_ge {t : TourConfig} {ks : String × Scene} {x : Hotspot} {v : Nat}
    (hks : ks ∈ t.scenes) (hx : x ∈ ks.2.hotSpots) (hv : suffixValue x.id = some v) :
    v ≤ maxSuffix t :=
  foldl_suffix_ge_scenes hks hx hv 0

/-- An id `hs_<owner>_<m>` whose suffix `m` exceeds every suffix in the
document is carried by no existing hotspot. -/
theorem fresh_id_not_mem_ids {t : TourConfig} {owner : String} {m : Nat}
    (hm : maxSuffix t < m) : ("hs_" ++ owner ++ "_" ++ natToString m) ∉ hotspotIds t := by
  intro hc
  rw [hotspotIds, scenesIds] at hc
  rw [List.mem_flatMap] at hc
  obtain ⟨ks, hks, hmem⟩ := hc
  rw [List.mem_map] at hmem
  obtain ⟨x, hx, heq⟩ := hmem
  have hsv : suffixValue x.id = some m := by
    rw [heq, suffixValue_gen]
  exact absurd (maxSuffix_ge hks hx hsv) (by omega)

/-!
## The second pass of ensureHotspotIds: counter threading
-/

theorem assignIdsHotspots_le (sceneId : String) :
    ∀ (l : List Hotspot) (c : Nat), c ≤ (assignIdsHotspots sceneId c l).2 := by
  intro l
  induction l with
  | nil => intro c; exact le_refl c
  | cons hs rest ih =>
    intro c
    by_cases hid : hs.id = ""
    · have hred : assignIdsHotspots sceneId c (hs :: rest) =
          ({ hs with id := "hs_" ++ sceneId ++ "_" ++ natToString c } ::
            (assignIdsHotspots sceneId (c + 1) rest).1,
           (assignIdsHotspots sceneId (c + 1) rest).2) := by
        simp only [assignIdsHotspots, if_pos hid]
      rw [hred]
      exact le_trans (Nat.le_succ c) (ih (c + 1))
    · have hred : assignIdsHotspots sceneId c (hs :: rest) =
          (hs :: (assignIdsHotspots sceneId c rest).1,
           (assignIdsHotspots sceneId c rest).2) := by
        simp only [assignIdsHotspots, if_neg hid]
      rw [hred]
      exact ih c

theorem assignIdsHotspots_get (sceneId : String) :
    ∀ (l : List Hotspot) (c : Nat),
      (assignIdsHotspots sceneId c l).1.length = l.length ∧
      ∀ (j : Nat) (x : Hotspot), l[j]? = some x →
        if x.id = "" then
          ∃ m, c ≤ m ∧
            (assignIdsHotspots sceneId c l).1[j]? =
              some { x with id := "hs_" ++ sceneId ++ "_" ++ natToString m }
        else (assignIdsHotspots sceneId c l).1[j]? = some x := by
  intro l
  induction l with
  | nil =>
    intro c
    exact ⟨rfl, fun j x h => absurd h (by simp)⟩
  | cons hs rest ih =>
    intro c
    by_cases hid : hs.id = ""
    · have hred : assignIdsHotspots sceneId c (hs :: rest) =
          ({ hs with id := "hs_" ++ sceneId ++ "_" ++ natToString c } ::
            (assignIdsHotspots sceneId (c + 1) rest).1,
           (assignIdsHotspots sceneId (c + 1) rest).2) := by
        simp only [assignIdsHotspots, if_pos hid]
      obtain ⟨ihlen, ihget⟩ := ih (c + 1)
      constructor
      · rw [hred, List.length_cons, ihlen, List.length_cons]
      · intro j x hx
        cases j with
        | zero =>
          rw [List.getElem?_cons_zero] at hx
          have hxh : x = hs := (Option.some_inj.mp hx).symm
          subst hxh
          rw [if_pos hid]
          refine ⟨c, le_refl c, ?_⟩
          rw [hred, List.getElem?_cons_zero]
        | succ j2 =>
          rw [List.getElem?_cons_succ] at hx
          have hmain := ihget j2 x hx
          by_cases hxid : x.id = ""
          · rw [if_pos hxid] at hmain ⊢
            obtain ⟨m, hm, hget⟩ := hmain
            refine ⟨m, by omega, ?_⟩
            rw [hred, List.getElem?_cons_succ]
            exact hget
          · rw [if_neg hxid] at hmain ⊢
            rw [hred, List.getElem?_cons_succ]
            exact hmain
    · have hred : assignIdsHotspots sceneId c (hs :: rest) =
          (hs :: (assignIdsHotspots sceneId c rest).1,
           (assignIdsHotspots sceneId c rest).2) := by
        simp only [assignIdsHotspots, if_neg hid]
      obtain ⟨ihlen, ihget⟩ := ih c
      constructor
      · rw [hred, List.length_cons, ihlen, List.length_cons]
      · intro j x hx
        cases j with
        | zero =>
          rw [List.getElem?_cons_zero] at hx
          have hxh : x = hs := (Option.some_inj.mp hx).symm
          subst hxh
          rw [if_neg hid]
          rw [hred, List.getElem?_cons_zero]
        | succ j2 =>
          rw [List.getElem?_cons_succ] at hx
          have hmain := ihget j2 x hx
          by_cases hxid : x.id = ""
          · rw [if_pos hxid] at hmain ⊢
            obtain ⟨m, hm, hget⟩ := hmain
            refine ⟨m, hm, ?_⟩
            rw [hred, List.getElem?_cons_succ]
            exact hget
          · rw [if_neg hxid] at hmain ⊢
            rw [hred, List.getElem?_cons_succ]
            exact hmain

theorem assignIdsScenes_lookup :
    ∀ (scenes : List (String × Scene)) (c : Nat),
      (assignIdsScenes c scenes).1.map Prod.fst = scenes.map Prod.fst ∧
      c ≤ (assignIdsScenes c scenes).2 ∧
      ∀ k sc, lookupScene scenes k = some sc →
        ∃ c1, c ≤ c1 ∧
          lookupScene (assignIdsScenes c scenes).1 k =
            some { sc with hotSpots := (assignIdsHotspots k c1 sc.hotSpots).1 } := by
  intro scenes
  induction scenes with
  | nil =>
    intro c
    exact ⟨rfl, le_refl c, fun k sc h => absurd h (by simp [lookupScene])⟩
  | cons ks rest ih =>
    intro c
    have hred : assignIdsScenes c (ks :: rest) =
        ((ks.1, { ks.2 with hotSpots := (assignIdsHotspots ks.1 c ks.2.hotSpots).1 }) ::
          (assignIdsScenes (assignIdsHotspots ks.1 c ks.2.hotSpots).2 rest).1,
         (assignIdsScenes (assignIdsHotspots ks.1 c ks.2.hotSpots).2 rest).2) := by
      simp only [assignIdsScenes]
    obtain ⟨ihkeys, ihle, ihlook⟩ := ih (assignIdsHotspots ks.1 c ks.2.hotSpots).2
    refine ⟨?_, ?_, ?_⟩
    · rw [hred, List.map_cons, List.map_cons, ihkeys]
    · rw [hred]
      exact le_trans (assignIdsHotspots_le ks.1 ks.2.hotSpots c) ihle
    · intro k sc hlook
      by_cases hk : ks.1 = k
      · subst hk
        have hsc : sc = ks.2 := by
          rw [show ks :: rest = (ks.1, ks.2) :: rest from rfl, lookupScene_cons_self] at hlook
          exact (Option.some_inj.mp hlook).symm
        subst hsc
        refine ⟨c, le_refl c, ?_⟩
        rw [hred]
        exact lookupScene_cons_self
      · have hlook2 : lookupScene rest k = some sc := by
          rw [show ks :: rest = (ks.1, ks.2) :: rest from rfl, lookupScene_cons_ne hk] at hlook
          exact hlook
        obtain ⟨c1, hc1, hl⟩ := ihlook k sc hlook2
        refine ⟨c1, le_trans (assignIdsHotspots_le ks.1 ks.2.hotSpots c) hc1, ?_⟩
        rw [hred, lookupScene_cons_ne hk]
        exact hl

/-- Looking a key up in the rebuilt (filterMap) scene list gives the same
answer as in the original list, for keys mentioned in the order. -/
theorem filterMap_lookup_eq {scenes : List (String × Scene)} :
    ∀ {l : List String} {k : String}, k ∈ l →
    lookupScene (l.filterMap (fun k2 => (lookupScene scenes k2).map (fun s => (k2, s)))) k =
      lookupScene scenes k := by
  intro l
  induction l with
  | nil => intro k hmem; exact absurd hmem (List.not_mem_nil _)
  | cons k0 rest ih =>
    intro k hmem
    rw [List.filterMap_cons]
    by_cases hk : k0 = k
    · subst hk
      cases hL : lookupScene scenes k0 with
      | none =>
        simp only [Option.map_none']
        rw [lookupScene_eq_none_iff]
        intro hmem2
        obtain ⟨p, hp, hpk⟩ := List.mem_map.mp hmem2
        obtain ⟨k2, hk2, hfk2⟩ := List.mem_filterMap.mp hp
        cases hL2 : lookupScene scenes k2 with
        | none => rw [hL2] at hfk2; exact Option.noConfusion hfk2
        | some s2 =>
          rw [hL2] at hfk2
          have hp2 : p = (k2, s2) := (Option.some_inj.mp hfk2).symm
          have hk2k0 : k2 = k0 := by
            rw [hp2] at hpk
            exact hpk
          rw [hk2k0, hL] at hL2
          exact Option.noConfusion hL2
      | some s =>
        simp only [Option.map_some']
        exact lookupScene_cons_self
    · rcases List.mem_cons.mp hmem with rfl | hmem2
      · exact absurd rfl hk
      · cases hL : lookupScene scenes k0 with
        | none =>
          simp only [Option.map_none']
          exact ih hmem2
        | some s =>
          simp only [Option.map_some']
          rw [lookupScene_cons_ne hk]
          exact ih hmem2

/-!
## Claim C8
-/

/-- **C8.**  For every successfully parsed imported document (whose scene
keys are pairwise distinct — automatic for a JS object — and whose
`sceneOrder`, when present, is a permutation of the scene keys, invariant
3 of exported documents), normalization first derives `sceneOrder` from
scene insertion order when it is missing/empty, then assigns to every
hotspot lacking an id a fresh identifier `hs_<ownerSceneId>_<counter>`
with the counter seeded past the highest numeric suffix among all
existing `hs_*` ids — so the new ids collide with no existing id — and
finally reconciles the scene map's iteration order to `sceneOrder`. -/
theorem C8_import_normalization (t : TourConfig)
    (hnd : (sceneKeys t).Nodup)
    (hwf : t.sceneOrder = [] ∨ t.sceneOrder.Perm (sceneKeys t)) :
    (importNormalize t).1.sceneOrder =
      (if t.sceneOrder = [] then sceneKeys t else t.sceneOrder) ∧
    sceneKeys (importNormalize t).1 =
      (if t.sceneOrder = [] then sceneKeys t else t.sceneOrder) ∧
    maxSuffix t + 1 ≤ (importNormalize t).2 ∧
    (∀ k sc, lookupScene t.scenes k = some sc →
      ∃ sc', lookupScene (importNormalize t).1.scenes k = some sc' ∧
        sc'.hotSpots.length = sc.hotSpots.length ∧
        ∀ (j : Nat) (x : Hotspot), sc.hotSpots[j]? = some x →
          if x.id = "" then
            ∃ m, maxSuffix t < m ∧
              sc'.hotSpots[j]? =
                some { x with id := "hs_" ++ k ++ "_" ++ natToString m } ∧
              ("hs_" ++ k ++ "_" ++ natToString m) ∉ hotspotIds t
          else sc'.hotSpots[j]? = some x) := by
  have hstep : ∃ t1 : TourConfig,
      importNormalize t =
        (reorderScenes
          { t1 with scenes := (assignIdsScenes (maxSuffix t + 1) t1.scenes).1 }
          t1.sceneOrder,
         (assignIdsScenes (maxSuffix t + 1) t1.scenes).2) ∧
      t1.scenes = t.scenes ∧
      t1.sceneOrder = (if t.sceneOrder = [] then sceneKeys t else t.sceneOrder) := by
    by_cases hE : t.sceneOrder = []
    · refine ⟨{ t with sceneOrder := sceneKeys t }, ?_, rfl, by rw [if_pos hE]⟩
      have hEmp : t.sceneOrder.isEmpty = true := by rw [hE]; rfl
      simp only [importNormalize]
      rw [if_pos hEmp]
      rfl
    · refine ⟨t, ?_, rfl, by rw [if_neg hE]⟩
      have hEmp : t.sceneOrder.isEmpty = false := by
        cases hD : t.sceneOrder with
        | nil => exact absurd hD hE
        | cons a l => rfl
      simp only [importNormalize]
      rw [if_neg (show ¬ t.sceneOrder.isEmpty = true by rw [hEmp]; simp)]
  obtain ⟨t1, heq, hsc1, hord1⟩ := hstep
  have hperm : t1.sceneOrder.Perm (sceneKeys t) := by
    rw [hord1]
    by_cases hE : t.sceneOrder = []
    · rw [if_pos hE]
    · rw [if_neg hE]
      rcases hwf with hc | hc
      · exact absurd hc hE
      · exact hc
  obtain ⟨hkeysA, hleA, hlookA⟩ := assignIdsScenes_lookup t1.scenes (maxSuffix t + 1)
  have hndOrd : t1.sceneOrder.Nodup := hperm.symm.nodup hnd
  have hsubOrd : ∀ k ∈ t1.sceneOrder,
      k ∈ (assignIdsScenes (maxSuffix t + 1) t1.scenes).1.map Prod.fst := by
    intro k hk
    rw [hkeysA, hsc1]
    exact hperm.mem_iff.mp hk
  have hrebuild :
      rebuildScenes (assignIdsScenes (maxSuffix t + 1) t1.scenes).1 [] t1.sceneOrder =
      t1.sceneOrder.filterMap
        (fun k => (lookupScene (assignIdsScenes (maxSuffix t + 1) t1.scenes).1 k).map
          (fun s => (k, s))) :=
    rebuildScenes_eq_filterMap hndOrd (by simp)
  simp only [heq]
  refine ⟨?_, ?_, ?_, ?_⟩
  · show t1.sceneOrder = _
    exact hord1
  · show (rebuildScenes (assignIdsScenes (maxSuffix t + 1) t1.scenes).1
      [] t1.sceneOrder).map Prod.fst = _
    rw [hrebuild, filterMap_lookup_keys hsubOrd]
    exact hord1
  · show maxSuffix t + 1 ≤ (assignIdsScenes (maxSuffix t + 1) t1.scenes).2
    exact hleA
  · intro k sc hlook
    have hlook1 : lookupScene t1.scenes k = some sc := by rw [hsc1]; exact hlook
    obtain ⟨c1, hc1, hlA⟩ := hlookA k sc hlook1
    have hkmem : k ∈ t1.sceneOrder := by
      apply hperm.mem_iff.mpr
      exact lookupScene_isSome_iff.mp (by rw [hlook]; rfl)
    have hlookRes : lookupScene
        (rebuildScenes (assignIdsScenes (maxSuffix t + 1) t1.scenes).1 [] t1.sceneOrder) k =
        some { sc with hotSpots := (assignIdsHotspots k c1 sc.hotSpots).1 } := by
      rw [hrebuild, filterMap_lookup_eq hkmem]
      exact hlA
    refine ⟨{ sc with hotSpots := (assignIdsHotspots k c1 sc.hotSpots).1 }, hlookRes,
      (assignIdsHotspots_get k sc.hotSpots c1).1, ?_⟩
    intro j x hx
    have hmain := (assignIdsHotspots_get k sc.hotSpots c1).2 j x hx
    by_cases hxid : x.id = ""
    · rw [if_pos hxid] at hmain ⊢
      obtain ⟨m, hm, hget⟩ := hmain
      refine ⟨m, by omega, hget, ?_⟩
      exact fresh_id_not_mem_ids (by omega)
    · rw [if_neg hxid] at hmain ⊢
      exact hmain

/-- A hotspot in scene "A" with a missing id, targeting "B". -/
def hsC8 : Hotspot :=
  { pitch := 0, yaw := 0, text := "to B", sceneId := "B", id := "",
    targetPitch := 0, targetYaw := 0, targetHfov := 100 }

/-- A hotspot in scene "B" carrying the imported id `hs_B_007`. -/
def hsC8b : Hotspot :=
  { pitch := 1, yaw := 2, text := "to A", sceneId := "A", id := "hs_B_007",
    targetPitch := 0, targetYaw := 0, targetHfov := 100 }

/-- Scene "A" of the scenario-E document. -/
def scC8a : Scene := { mkScene "tiles/a/" 5 8192 with hotSpots := [hsC8] }

/-- Scene "B" of the scenario-E document. -/
def scC8b : Scene := { mkScene "tiles/b/" 5 8192 with hotSpots := [hsC8b] }

/-- Scenario E: an imported document missing `sceneOrder`, with one
blank-id hotspot and one existing id of numeric suffix 7. -/
def docC8 : TourConfig :=
  { firstScene := "A", sceneOrder := [], scenes := [("A", scC8a), ("B", scC8b)] }

/-- **C8, witness.**  Importing `docC8` derives `sceneOrder = ["A", "B"]`
from insertion order, reconciles the map to it, and gives the blank-id
hotspot a fresh id `hs_A_<m>` with `m > 7` (the highest existing suffix)
that collides with no existing id. -/
theorem C8_import_normalization_witness :
    (importNormalize docC8).1.sceneOrder = ["A", "B"] ∧
    sceneKeys (importNormalize docC8).1 = ["A", "B"] ∧
    ∃ sc', lookupScene (importNormalize docC8).1.scenes "A" = some sc' ∧
      ∃ m, 7 < m ∧
        sc'.hotSpots[0]? = some { hsC8 with id := "hs_" ++ "A" ++ "_" ++ natToString m } ∧
        ("hs_" ++ "A" ++ "_" ++ natToString m) ∉ hotspotIds docC8 := by
  obtain ⟨h1, h2, h3, h4⟩ := C8_import_normalization docC8 (by decide) (Or.inl rfl)
  refine ⟨?_, ?_, ?_⟩
  · rw [h1]; rfl
  · rw [h2]; rfl
  · obtain ⟨sc', hlook, hlen, hget⟩ := h4 "A" scC8a rfl
    have hx : scC8a.hotSpots[0]? = some hsC8 := rfl
    have hmain := hget 0 hsC8 hx
    rw [if_pos (show hsC8.id = "" from rfl)] at hmain
    obtain ⟨m, hm, hgeteq, hfresh⟩ := hmain
    have h7 : maxSuffix docC8 = 7 := by decide
    rw [h7] at hm
    exact ⟨sc', hlook, m, hm, hgeteq, hfresh⟩

end TourEditor
